import Mathlib

/-!
Verification development for a cross-file static analyzer of a Starlark-like
dialect (scope tracking, import resolution, call-compatibility checking,
visibility analysis, and a two-pass orchestration protocol).

The definitions below are a shallow embedding of the analyzer's Python
sources (`analysis/unified_analyzer.py`, `analysis/visitors/base_visitor.py`,
`analysis/visitors/unified_import_visitor.py`,
`analysis/visitors/unified_function_visitor.py`).  Stateful visitors become
explicit state-passing functions; Python exceptions become an explicit
error-carrying result type.
-/

namespace KurtosisLint

/-! ### Association lists and list sets

Python dictionaries are modelled as insertion-ordered association lists
(`d[k] = v` replaces in place or appends); Python sets as insertion-ordered
duplicate-free lists.  -/

/-- Lookup in an association list, mirroring Python `d.get(k)` / `k in d`. -/
def lookupA {α : Type} (l : List (String × α)) (k : String) : Option α :=
  match l with
  | [] => none
  | (k', v) :: t => if k' = k then some v else lookupA t k

/-- Key membership in an association list, mirroring Python `k in d`. -/
def memA {α : Type} (l : List (String × α)) (k : String) : Bool :=
  (lookupA l k).isSome

/-- Insertion-ordered update, mirroring Python `d[k] = v`. -/
def insertA {α : Type} (l : List (String × α)) (k : String) (v : α) :
    List (String × α) :=
  match l with
  | [] => [(k, v)]
  | (k', v') :: t => if k' = k then (k, v) :: t else (k', v') :: insertA t k v

/-- Insertion-ordered set insertion, mirroring Python `s.add(x)`. -/
def addS {α : Type} [DecidableEq α] (l : List α) (x : α) : List α :=
  if x ∈ l then l else l ++ [x]

/-- Structural model of Python `s.startswith(pre)` (kernel-reducible,
unlike the library `String.startsWith`). -/
def sStarts (s pre : String) : Bool :=
  pre.data.isPrefixOf s.data

/-- Structural model of Python `s.endswith(suf)`. -/
def sEnds (s suf : String) : Bool :=
  suf.data.reverse.isPrefixOf s.data.reverse

/-- Structural model of dropping the first `n` characters of a string. -/
def sDrop (s : String) (n : Nat) : String :=
  String.mk (s.data.drop n)

/-- Character-list splitter on the path separator. -/
def splitSlashAux : List Char → List (List Char)
  | [] => [[]]
  | c :: t =>
    if c = '/' then [] :: splitSlashAux t
    else
      match splitSlashAux t with
      | h :: r => (c :: h) :: r
      | [] => [[c]]

/-- Structural model of `s.split("/")`. -/
def splitSlash (s : String) : List String :=
  (splitSlashAux s.data).map String.mk

/-- Whitespace recognizer used by the strip model. -/
def isSpaceChar (c : Char) : Bool :=
  c = ' ' || c = '\t' || c = '\n' || c = '\r'

/-- Structural model of Python `s.strip()`. -/
def sStrip (s : String) : String :=
  String.mk
    (((s.data.dropWhile isSpaceChar).reverse.dropWhile isSpaceChar).reverse)

/-! ### Path operations

Models of the `os.path` functions the analyzer uses. -/

/-- Model of `os.path.dirname`. -/
def pDirname (p : String) : String :=
  let parts := splitSlash p
  if parts.length ≤ 1 then ""
  else
    let d := String.intercalate "/" parts.dropLast
    if d = "" then "/" else d

/-- Model of `os.path.basename`. -/
def pBasename (p : String) : String :=
  match (splitSlash p).getLast? with
  | some s => s
  | none => ""

/-- Model of `os.path.join` for two components. -/
def pJoin (a b : String) : String :=
  if sStarts b "/" then b
  else if a = "" then b
  else if sEnds a "/" then a ++ b
  else a ++ "/" ++ b

/-- Stack step of path normalization: process one component. -/
def normStep (isAbs : Bool) (stack : List String) (c : String) : List String :=
  if c = "" ∨ c = "." then stack
  else if c = ".." then
    match stack.getLast? with
    | some l => if l = ".." then stack ++ [c] else stack.dropLast
    | none => if isAbs then [] else [c]
  else stack ++ [c]

/-- Model of `os.path.normpath`. -/
def pNormpath (p : String) : String :=
  let isAbs := sStarts p "/"
  let comps := (splitSlash p).foldl (normStep isAbs) []
  let body := String.intercalate "/" comps
  if isAbs then "/" ++ body
  else if body = "" then "." else body

/-- Path components after normalization, used by `pRelpath`. -/
def pComps (p : String) : List String :=
  (splitSlash p).foldl (normStep (sStarts p "/")) []

/-- Drop the longest common prefix of two component lists. -/
def dropCommon : List String → List String → List String × List String
  | a :: as', b :: bs' =>
    if a = b then dropCommon as' bs' else (a :: as', b :: bs')
  | as', bs' => (as', bs')

/-- Model of `os.path.relpath target start`. -/
def pRelpath (target start : String) : String :=
  let (t, s) := dropCommon (pComps target) (pComps start)
  let comps := List.replicate s.length ".." ++ t
  if comps = [] then "." else String.intercalate "/" comps

/-- Model of Python `str.lstrip("/")`. -/
def lstripSlash (s : String) : String :=
  String.mk (s.data.dropWhile (· = '/'))

/-! ### Constants, errors, and the syntax tree -/

/-- Literal constants of the dialect (`ast.Constant` values, including
Python `None`). -/
inductive Const where
  | noneV : Const
  | boolV : Bool → Const
  | intV : Int → Const
  | strV : String → Const
deriving DecidableEq, Repr

/-- Python exceptions the embedded code can raise. -/
inductive PyErr where
  | keyError : Nat → PyErr
  | attrError : String → PyErr
  | indexError : PyErr
deriving DecidableEq, Repr

/-- Rendering of an exception as Python `str(e)` (used when an exception is
converted into a synthetic violation at the file boundary). -/
def PyErr.toMsg : PyErr → String
  | .keyError n => toString n
  | .attrError m => m
  | .indexError => "list index out of range"

mutual
/-- Expressions of the analyzed dialect (the subset of the Python AST the
visitors dispatch on).  Container nodes carry their source line because the
function visitor reports reference checks at the container's line. -/
inductive Expr where
  | nameE : String → Expr
  | constE : Const → Expr
  | callE : Nat → Expr → List Expr → List Kw → Expr
  | attrE : Expr → String → Expr
  | tupleE : Nat → List Expr → Expr
  | listE : Nat → List Expr → Expr
  | dictE : Nat → List (Expr × Expr) → Expr
  | compE : Expr → List (Expr × Expr) → Expr
deriving Repr

/-- A keyword argument at a call site; `arg = none` models `**kwargs`
expansion (a keyword node whose `arg` is Python `None`). -/
inductive Kw where
  | mk : Option String → Expr → Kw
deriving Repr
end

/-- Name of a keyword argument node. -/
def Kw.arg : Kw → Option String
  | .mk a _ => a

/-- Value expression of a keyword argument node. -/
def Kw.value : Kw → Expr
  | .mk _ v => v

/-- Formal-argument specification of a function definition
(`ast.arguments`): positional names, trailing defaults, `*args` name,
keyword-only names, their default expressions (`none` = no default), and
the `**kwargs` name. -/
structure ArgSpec where
  args : List String
  defaults : List Expr
  vararg : Option String
  kwonlyargs : List String
  kwDefaults : List (Option Expr)
  kwarg : Option String
deriving Repr

/-- Statements of the analyzed dialect.  Each carries its source line. -/
inductive Stmt where
  | exprS : Nat → Expr → Stmt
  | assignS : Nat → List Expr → Expr → Stmt
  | funcDefS : Nat → String → ArgSpec → List Stmt → Stmt
  | forS : Nat → Expr → Expr → List Stmt → List Stmt → Stmt
  | ifS : Nat → Expr → List Stmt → List Stmt → Stmt
  | returnS : Nat → Option Expr → Stmt
deriving Repr

/-- A parsed module is its statement list (`ast.Module.body`). -/
abbrev Module := List Stmt

/-- Result of running a visitor step: normal completion, or a propagating
Python exception together with the visitor state as mutated so far. -/
inductive VRes (σ : Type) where
  | ok : σ → VRes σ
  | err : PyErr → σ → VRes σ
deriving Repr

end KurtosisLint

namespace KurtosisLint

/-- Propagate an exception, or continue with the next visitor step
(sequencing of Python statements inside a visitor method). -/
def VRes.bind {σ : Type} (r : VRes σ) (f : σ → VRes σ) : VRes σ :=
  match r with
  | .ok s => f s
  | .err e s => .err e s

/-! ### Scope model and base visitor (`base_visitor.py`)

`BaseVisitor` keeps a stack of name sets (`scopes`) and a parallel stack of
name-to-symbolic-value maps (`variable_assignments`).  Python appends frames
at the end of a list; here the top of the stack is the head of the list. -/

/-- Symbolic value recorded for a tracked assignment: another name, a whole
right-hand expression, or an expression tagged with a tuple position. -/
inductive SymVal where
  | nameV : String → SymVal
  | exprV : Expr → SymVal
  | exprIdxV : Expr → Nat → SymVal
deriving Repr

/-- State of `BaseVisitor`: the scope stack and the assignment stack. -/
structure BState where
  scopes : List (List String)
  varAssign : List (List (String × SymVal))
deriving Repr

/-- Initial visitor state (`__init__`): one global frame. -/
def BState.init : BState := { scopes := [[]], varAssign := [[]] }

/-- Model of `_enter_scope`: push an empty frame on both stacks. -/
def bEnter (s : BState) : BState :=
  { scopes := [] :: s.scopes, varAssign := [] :: s.varAssign }

/-- Model of `_exit_scope`: pop the top frame of each stack; popping an
empty stack is a no-op. -/
def bExit (s : BState) : BState :=
  { scopes := s.scopes.tail, varAssign := s.varAssign.tail }

/-- Model of `_add_to_current_scope`. -/
def bBind (s : BState) (v : String) : BState :=
  match s.scopes with
  | [] => s
  | h :: t => { s with scopes := addS h v :: t }

/-- Model of `_add_variable_assignment`. -/
def bBindVal (s : BState) (v : String) (val : SymVal) : BState :=
  match s.varAssign with
  | [] => s
  | h :: t => { s with varAssign := insertA h v val :: t }

/-- Model of `_is_in_scope`: membership in any frame. -/
def bIsInScope (s : BState) (v : String) : Bool :=
  s.scopes.any (fun fr => v ∈ fr)

/-- Innermost recorded value in a stack of assignment frames. -/
def lookupFrames (frames : List (List (String × SymVal))) (v : String) :
    Option SymVal :=
  match frames with
  | [] => none
  | h :: t =>
    match lookupA h v with
    | some x => some x
    | none => lookupFrames t v

/-- Model of `_get_variable_value`: innermost recorded value, if any. -/
def bValueOf (s : BState) (v : String) : Option SymVal :=
  lookupFrames s.varAssign v

/-- Model of `BaseVisitor._handle_name_assignment`. -/
def bHandleNameAssign (s : BState) (v : String) (value : Expr) : BState :=
  let s := bBind s v
  match value with
  | .nameE src => bBindVal s v (.nameV src)
  | _ => bBindVal s v (.exprV value)

/-- Model of `BaseVisitor._handle_tuple_element_assignment`. -/
def bHandleTupleElt (s : BState) (elt : Expr) (value : Expr) (i : Nat) :
    BState :=
  match elt with
  | .nameE v =>
    let s := bBind s v
    match value with
    | .tupleE _ elts =>
      match elts.get? i with
      | some (.nameE src) => bBindVal s v (.nameV src)
      | some ev => bBindVal s v (.exprV ev)
      | none => bBindVal s v (.exprIdxV value i)
    | _ => bBindVal s v (.exprIdxV value i)
  | _ => s

/-- Bind the parameters of a function definition into the current frame
(`visit_FunctionDef`, parameter section). -/
def bAddParams (s : BState) (spec : ArgSpec) : BState :=
  let s := spec.args.foldl bBind s
  let s := match spec.vararg with | some v => bBind s v | none => s
  let s := spec.kwonlyargs.foldl bBind s
  match spec.kwarg with | some v => bBind s v | none => s

/-- Bind a `for` loop target (`visit_For`, target section). -/
def bBindForTarget (s : BState) (target : Expr) : BState :=
  match target with
  | .nameE v => bBind s v
  | .tupleE _ elts =>
    elts.foldl (fun s e => match e with | .nameE v => bBind s v | _ => s) s
  | _ => s

/-- Bind comprehension generator targets (`visit_ListComp`).  Accessing
`generator.target.id` on a non-`Name` target raises `AttributeError`,
exactly as in CPython. -/
def bAddCompTargets (s : BState) : List (Expr × Expr) → VRes BState
  | [] => .ok s
  | (t, _) :: rest =>
    match t with
    | .nameE v => bAddCompTargets (bBind s v) rest
    | .tupleE _ _ => .err (.attrError "'Tuple' object has no attribute 'id'") s
    | _ => .err (.attrError "object has no attribute 'id'") s

/-- Process the targets of an assignment (`visit_Assign`, target loop). -/
def bAssignTargets (value : Expr) (s : BState) (targets : List Expr) : BState :=
  targets.foldl
    (fun s t =>
      match t with
      | .nameE v => bHandleNameAssign s v value
      | .tupleE _ elts =>
        (elts.enum.foldl (fun s p => bHandleTupleElt s p.2 value p.1) s)
      | _ => s)
    s

mutual
/-- Model of `BaseVisitor.visit` on a statement: dispatch to the node-kind
handler, or generic recursion into children. -/
def bVisitStmt (s : BState) : Stmt → VRes BState
  | .exprS _ e => bVisitExpr s e
  | .returnS _ v =>
    match v with
    | some e => bVisitExpr s e
    | none => .ok s
  | .assignS _ targets value =>
    (bVisitExpr s value).bind fun s => .ok (bAssignTargets value s targets)
  | .funcDefS _ _ spec body =>
    let s := bAddParams (bEnter s) spec
    (bVisitStmts s body).bind fun s => .ok (bExit s)
  | .forS _ target iter body orelse =>
    (bVisitExpr s iter).bind fun s =>
    let s := bBindForTarget (bEnter s) target
    (bVisitStmts s body).bind fun s =>
    (bVisitStmts s orelse).bind fun s => .ok (bExit s)
  | .ifS _ test body orelse =>
    (bVisitExpr s test).bind fun s =>
    (bVisitStmts (bEnter s) body).bind fun s =>
    (bVisitStmts (bEnter (bExit s)) orelse).bind fun s => .ok (bExit s)

/-- Sequential visit of a statement list. -/
def bVisitStmts (s : BState) : List Stmt → VRes BState
  | [] => .ok s
  | st :: rest => (bVisitStmt s st).bind fun s => bVisitStmts s rest

/-- Model of `BaseVisitor.visit` on an expression (generic recursion for
nodes without a handler; `visit_ListComp` for comprehensions). -/
def bVisitExpr (s : BState) : Expr → VRes BState
  | .nameE _ => .ok s
  | .constE _ => .ok s
  | .callE _ f args kws =>
    (bVisitExpr s f).bind fun s =>
    (bVisitExprs s args).bind fun s => bVisitKws s kws
  | .attrE obj _ => bVisitExpr s obj
  | .tupleE _ elts => bVisitExprs s elts
  | .listE _ elts => bVisitExprs s elts
  | .dictE _ entries => bVisitPairs s entries
  | .compE elt gens =>
    match bAddCompTargets (bEnter s) gens with
    | .err e s => .err e s
    | .ok s => (bVisitExpr s elt).bind fun s => .ok (bExit s)

/-- Sequential visit of an expression list. -/
def bVisitExprs (s : BState) : List Expr → VRes BState
  | [] => .ok s
  | e :: rest => (bVisitExpr s e).bind fun s => bVisitExprs s rest

/-- Sequential visit of keyword-argument values. -/
def bVisitKws (s : BState) : List Kw → VRes BState
  | [] => .ok s
  | .mk _ v :: rest => (bVisitExpr s v).bind fun s => bVisitKws s rest

/-- Sequential visit of key/value pairs of a dictionary literal. -/
def bVisitPairs (s : BState) : List (Expr × Expr) → VRes BState
  | [] => .ok s
  | (k, v) :: rest =>
    (bVisitExpr s k).bind fun s =>
    (bVisitExpr s v).bind fun s => bVisitPairs s rest
end

/-- Model of `BaseVisitor.visit_Module`: enter the module frame, visit the
body, then leave the frame. -/
def bVisitModule (s : BState) (body : Module) : VRes BState :=
  (bVisitStmts (bEnter s) body).bind fun s => .ok (bExit s)

end KurtosisLint

namespace KurtosisLint

/-! ### Import resolver (`unified_import_visitor.py`) -/

/-- Model of the `ImportedModule` named tuple. -/
structure ImportedModule where
  modulePath : String
  isExternal : Bool
  isAbsolute : Bool
  isRelative : Bool
  resolvedPath : Option String
  lineno : Nat
deriving DecidableEq, Repr

/-- Modelled from the spec: the `ImportInfo` record lives in
`analysis/visitors/common.py`, which is not among the sources; its shape is
fixed by its construction in `get_import_info` (module path plus optional
external package id; `imported_names` is always empty and omitted here). -/
structure ImportInfo where
  modulePath : String
  packageId : Option String
deriving DecidableEq, Repr

/-- Immutable per-file configuration of the import visitor: the file being
analyzed, the workspace root, and the existence check with its file-system
oracle. -/
structure IConfig where
  filePath : String
  workspaceRoot : Option String
  checkFileExists : Bool
  isFile : String → Bool

/-- Mutable state of `UnifiedImportVisitor`. -/
structure IState where
  scopes : List (List String)
  varAssign : List (List (String × SymVal))
  scopeLevel : Int
  importModuleCalls : List (String × ImportedModule)
  importModuleVars : List String
  violations : List (Nat × String)
  globalVars : List String
  aliases : List (String × String)

/-- Initial state of the import visitor. -/
def IState.init : IState :=
  { scopes := [[]], varAssign := [[]], scopeLevel := 0,
    importModuleCalls := [], importModuleVars := [], violations := [],
    globalVars := [], aliases := [] }

/-- Model of the overridden `_enter_scope`: push a frame and bump the scope
level. -/
def iEnter (s : IState) : IState :=
  { s with scopes := [] :: s.scopes, varAssign := [] :: s.varAssign,
           scopeLevel := s.scopeLevel + 1 }

/-- Model of the overridden `_exit_scope`: pop a frame and lower the scope
level. -/
def iExit (s : IState) : IState :=
  { s with scopes := s.scopes.tail, varAssign := s.varAssign.tail,
           scopeLevel := s.scopeLevel - 1 }

/-- Model of `_add_to_current_scope` on the import-visitor state. -/
def iBind (s : IState) (v : String) : IState :=
  match s.scopes with
  | [] => s
  | h :: t => { s with scopes := addS h v :: t }

/-- Model of `_resolve_module_path`: classify a module path and resolve it
when possible.  The whole body runs under `try/except`; the only reachable
exception is joining a bare path onto a `None` workspace root, which the
handler converts into `(None, False, False, False)`. -/
def resolveModulePath (cfg : IConfig) (modulePath : String) :
    Option String × Bool × Bool × Bool :=
  if sStarts modulePath "github.com/" then (none, true, false, false)
  else
    let isAbs := sStarts modulePath "/"
    let isRel := sStarts modulePath "./" || sStarts modulePath "../"
    if isAbs then
      match cfg.workspaceRoot with
      | some w =>
        if w ≠ "" then (some (pJoin w (sDrop modulePath 1)), false, isAbs, isRel)
        else (none, false, isAbs, isRel)
      | none => (none, false, isAbs, isRel)
    else if isRel then
      (some (pNormpath (pJoin (pDirname cfg.filePath) modulePath)),
       false, isAbs, isRel)
    else
      match cfg.workspaceRoot with
      | some w => (some (pJoin w modulePath), false, isAbs, isRel)
      | none => (none, false, false, false)

/-- Monotonicity of filtering: a stronger predicate keeps fewer elements. -/
theorem filter_cons_pos {α : Type} (p : α → Bool) (a : α) (t : List α)
    (h : p a = true) : (a :: t).filter p = a :: t.filter p := by
  simp [List.filter_cons, h]

theorem filter_cons_neg {α : Type} (p : α → Bool) (a : α) (t : List α)
    (h : p a = false) : (a :: t).filter p = t.filter p := by
  simp [List.filter_cons, h]

theorem length_filter_mono {α : Type} (l : List α) (p q : α → Bool)
    (h : ∀ a, p a = true → q a = true) :
    (l.filter p).length ≤ (l.filter q).length := by
  induction l with
  | nil => simp
  | cons a t ih =>
    cases hp : p a with
    | true =>
      rw [filter_cons_pos p a t hp, filter_cons_pos q a t (h a hp)]
      simpa using ih
    | false =>
      rw [filter_cons_neg p a t hp]
      cases hq : q a with
      | true =>
        rw [filter_cons_pos q a t hq]
        exact Nat.le_trans ih (Nat.le_succ _)
      | false =>
        rw [filter_cons_neg q a t hq]
        exact ih

/-- Filtering with a strictly stronger predicate that excludes a present
element keeps strictly fewer elements. -/
theorem length_filter_lt_of_mem {α : Type} (l : List α) (p q : α → Bool)
    (hmono : ∀ a, p a = true → q a = true) (x : α) (hx : x ∈ l)
    (hpx : p x = false) (hqx : q x = true) :
    (l.filter p).length < (l.filter q).length := by
  induction l with
  | nil => cases hx
  | cons a t ih =>
    by_cases hax : a = x
    · subst hax
      rw [filter_cons_neg p a t hpx, filter_cons_pos q a t hqx]
      have := length_filter_mono t p q hmono
      simp only [List.length_cons]
      omega
    · have hxt : x ∈ t := by
        cases hx with
        | head => exact absurd rfl hax
        | tail _ h => exact h
      cases hp : p a with
      | true =>
        rw [filter_cons_pos p a t hp, filter_cons_pos q a t (hmono a hp)]
        simpa using ih hxt
      | false =>
        rw [filter_cons_neg p a t hp]
        cases hq : q a with
        | true =>
          rw [filter_cons_pos q a t hq]
          exact Nat.lt_trans (ih hxt) (Nat.lt_succ_self _)
        | false =>
          rw [filter_cons_neg q a t hq]
          exact ih hxt

/-- A successful association-list lookup means the key occurs among the
keys. -/
theorem lookupA_some_mem {α : Type} (l : List (String × α)) (k : String)
    (v : α) (h : lookupA l k = some v) : k ∈ l.map Prod.fst := by
  induction l with
  | nil => simp [lookupA] at h
  | cons hd t ih =>
    obtain ⟨k1, v1⟩ := hd
    simp only [lookupA] at h
    by_cases hk : k1 = k
    · simp [hk]
    · rw [if_neg hk] at h
      simp [ih h]

/-- Model of `_is_import_module_var`: walk the alias chain with a visited
set; an already-visited name (a cycle, including a self-alias) resolves to
`false`.  Totality of this definition is the termination guarantee the
specification claims: the unvisited portion of the alias-key set strictly
shrinks on every recursive call. -/
def isImportModuleVar (importVars : List String)
    (aliases : List (String × String)) (v : String)
    (visited : List String) : Bool :=
  if hvis : v ∈ visited then false
  else if v ∈ importVars then true
  else
    match h : lookupA aliases v with
    | some src => isImportModuleVar importVars aliases src (v :: visited)
    | none => false
termination_by
  ((aliases.map Prod.fst).filter (fun k => decide (k ∉ visited))).length
decreasing_by
  refine length_filter_lt_of_mem _ _ _ ?_ v (lookupA_some_mem _ _ _ h) ?_ ?_
  · intro a ha
    simp at ha ⊢
    exact ha.2
  · simp
  · simpa using hvis

/-- Model of `_is_import_module_call`: recognize `import_module(...)` and
extract its path when the first argument is a string literal. -/
def isImportModuleCall (e : Expr) : Bool × Option String :=
  match e with
  | .callE _ (.nameE fn) args _ =>
    if fn = "import_module" then
      (true,
       match args.head? with
       | some (.constE (.strV s)) => some s
       | _ => none)
    else (false, none)
  | _ => (false, none)

/-- Naming-violation message for a variable directly bound to an import. -/
def directImportMsg (v : String) : String :=
  "Global variable '" ++ v ++
    "' contains the result of `import_module` and should be private"

/-- Naming-violation message for an alias of an import-bound variable. -/
def aliasImportMsg (v : String) : String :=
  "Global variable '" ++ v ++
    "' is an alias to an `import_module` result and should be private"

/-- Violation message for an import whose resolved file does not exist. -/
def existenceMsg (path rp : String) : String :=
  "Imported module '" ++ path ++ "' does not exist at resolved path '" ++
    rp ++ "'"

/-- Model of `_check_naming_convention`: only global-frame names are
checked; a name without the privacy marker yields one naming violation
citing either a direct import or an alias. -/
def checkNamingConvention (s : IState) (lineno : Nat) (varName : String)
    (isAlias : Bool) : IState :=
  if s.scopeLevel > 0 then s
  else
    let s := { s with globalVars := addS s.globalVars varName }
    if ¬ sStarts varName "_" then
      if isAlias then
        { s with violations := s.violations ++ [(lineno, aliasImportMsg varName)] }
      else
        { s with violations := s.violations ++ [(lineno, directImportMsg varName)] }
    else s

/-- Model of `_process_assignment` (tuple-unpacking path). -/
def processAssignment (s : IState) (lineno : Nat) (targetId : String)
    (isImp : Bool) : IState :=
  let s := iBind s targetId
  let s := if s.scopeLevel = 0 then
      { s with globalVars := addS s.globalVars targetId } else s
  if isImp then
    let s := { s with importModuleVars := addS s.importModuleVars targetId }
    if s.scopeLevel = 0 then checkNamingConvention s lineno targetId false
    else s
  else s

/-- Model of the import visitor's `_handle_name_assignment`. -/
def iHandleNameAssignment (cfg : IConfig) (s : IState) (lineno : Nat)
    (targetId : String) (isImp : Bool) (modulePath : Option String)
    (valueNode : Expr) : IState :=
  let s := iBind s targetId
  if isImp then
    let mp := match modulePath with
      | some p => some p
      | none =>
        match valueNode with
        | .callE _ _ args _ =>
          match args.head? with
          | some (.constE (.strV p)) => some p
          | _ => none
        | _ => none
    match mp with
    | some path =>
      let r := resolveModulePath cfg path
      let im : ImportedModule :=
        ⟨path, r.2.1, r.2.2.1, r.2.2.2, r.1, lineno⟩
      let s := { s with
        importModuleVars := addS s.importModuleVars targetId,
        importModuleCalls := insertA s.importModuleCalls targetId im }
      let s := match r.1 with
        | some rp =>
          if cfg.checkFileExists ∧ ¬ cfg.isFile rp then
            { s with violations := s.violations ++
                [(lineno, existenceMsg path rp)] }
          else s
        | none => s
      if s.scopeLevel = 0 then checkNamingConvention s lineno targetId false
      else s
    | none => s
  else
    match valueNode with
    | .nameE src =>
      let s := { s with aliases := insertA s.aliases targetId src }
      if isImportModuleVar s.importModuleVars s.aliases src [] ∧
          s.scopeLevel = 0 then
        checkNamingConvention s lineno targetId true
      else s
    | _ => s

/-- Model of the import visitor's `_handle_tuple_element_assignment`.
Python string truthiness makes an empty extracted path fall through to the
alias branch. -/
def iHandleTupleElement (cfg : IConfig) (s : IState) (lineno : Nat)
    (elt : Expr) (i : Nat) (valueElts : List Expr) : IState :=
  match elt with
  | .nameE eltId =>
    if h : i < valueElts.length then
      let ve := valueElts.get ⟨i, h⟩
      let r := isImportModuleCall ve
      let s := processAssignment s lineno eltId r.1
      let cond : Bool :=
        r.1 && (match r.2 with | some p => decide (p ≠ "") | none => false)
      if cond then
        match r.2 with
        | some path =>
          let rr := resolveModulePath cfg path
          let im := ImportedModule.mk path rr.2.1 rr.2.2.1 rr.2.2.2 rr.1 lineno
          { s with importModuleCalls := insertA s.importModuleCalls eltId im }
        | none => s
      else
        match ve with
        | .nameE src =>
          let s := { s with aliases := insertA s.aliases eltId src }
          if isImportModuleVar s.importModuleVars s.aliases src [] ∧
              s.scopeLevel = 0 then
            checkNamingConvention s lineno eltId true
          else s
        | _ => s
    else s
  | _ => s

/-- Bind comprehension generator targets for the import visitor (inherited
`visit_ListComp` body, with the overridden scope operations). -/
def iAddCompTargets (s : IState) : List (Expr × Expr) → VRes IState
  | [] => .ok s
  | (t, _) :: rest =>
    match t with
    | .nameE v => iAddCompTargets (iBind s v) rest
    | .tupleE _ _ => .err (.attrError "'Tuple' object has no attribute 'id'") s
    | _ => .err (.attrError "object has no attribute 'id'") s

/-- Bind a `for` loop target for the import visitor. -/
def iBindForTarget (s : IState) (target : Expr) : IState :=
  match target with
  | .nameE v => iBind s v
  | .tupleE _ elts =>
    elts.foldl (fun s e => match e with | .nameE v => iBind s v | _ => s) s
  | _ => s

mutual
/-- Model of `UnifiedImportVisitor.visit` on a statement.  `visit_Assign`,
`visit_FunctionDef` and `visit_If` wrap their bodies in `try/except` that
logs and resumes (without popping frames entered before the error);
inherited handlers (`visit_For`, comprehensions) propagate exceptions. -/
def iVisitStmt (cfg : IConfig) (s : IState) : Stmt → VRes IState
  | .exprS _ e => iVisitExpr s e
  | .returnS _ v =>
    match v with
    | some e => iVisitExpr s e
    | none => .ok s
  | .assignS lineno targets value =>
    let r := (iVisitExpr s value).bind fun s =>
      let imp := isImportModuleCall value
      .ok (targets.foldl
        (fun s t =>
          match t with
          | .nameE id => iHandleNameAssignment cfg s lineno id imp.1 imp.2 value
          | .tupleE _ elts =>
            match value with
            | .tupleE _ velts =>
              elts.enum.foldl
                (fun s p => iHandleTupleElement cfg s lineno p.2 p.1 velts) s
            | _ => s
          | _ => s)
        s)
    match r with
    | .ok s => .ok s
    | .err _ s => .ok s
  | .funcDefS _ _ _spec body =>
    let r := (iVisitStmts cfg (iEnter s) body).bind fun s => .ok (iExit s)
    match r with
    | .ok s => .ok s
    | .err _ s => .ok s
  | .ifS _ test body orelse =>
    let r := (iVisitExpr s test).bind fun s =>
      (iVisitStmts cfg (iEnter s) body).bind fun s =>
      (iVisitStmts cfg (iEnter (iExit s)) orelse).bind fun s => .ok (iExit s)
    match r with
    | .ok s => .ok s
    | .err _ s => .ok s
  | .forS _ target iter body orelse =>
    (iVisitExpr s iter).bind fun s =>
    let s := iBindForTarget (iEnter s) target
    (iVisitStmts cfg s body).bind fun s =>
    (iVisitStmts cfg s orelse).bind fun s => .ok (iExit s)

/-- Sequential visit of a statement list by the import visitor. -/
def iVisitStmts (cfg : IConfig) (s : IState) : List Stmt → VRes IState
  | [] => .ok s
  | st :: rest => (iVisitStmt cfg s st).bind fun s => iVisitStmts cfg s rest

/-- Model of `UnifiedImportVisitor.visit` on an expression: generic
recursion, with the inherited comprehension handler (which bumps the scope
level through the overridden scope operations). -/
def iVisitExpr (s : IState) : Expr → VRes IState
  | .nameE _ => .ok s
  | .constE _ => .ok s
  | .callE _ f args kws =>
    (iVisitExpr s f).bind fun s =>
    (iVisitExprs s args).bind fun s => iVisitKws s kws
  | .attrE obj _ => iVisitExpr s obj
  | .tupleE _ elts => iVisitExprs s elts
  | .listE _ elts => iVisitExprs s elts
  | .dictE _ entries => iVisitPairs s entries
  | .compE elt gens =>
    match iAddCompTargets (iEnter s) gens with
    | .err e s => .err e s
    | .ok s => (iVisitExpr s elt).bind fun s => .ok (iExit s)

/-- Sequential visit of an expression list by the import visitor. -/
def iVisitExprs (s : IState) : List Expr → VRes IState
  | [] => .ok s
  | e :: rest => (iVisitExpr s e).bind fun s => iVisitExprs s rest

/-- Sequential visit of keyword-argument values by the import visitor. -/
def iVisitKws (s : IState) : List Kw → VRes IState
  | [] => .ok s
  | .mk _ v :: rest => (iVisitExpr s v).bind fun s => iVisitKws s rest

/-- Sequential visit of dictionary entries by the import visitor. -/
def iVisitPairs (s : IState) : List (Expr × Expr) → VRes IState
  | [] => .ok s
  | (k, v) :: rest =>
    (iVisitExpr s k).bind fun s =>
    (iVisitExpr s v).bind fun s => iVisitPairs s rest
end

/-- Model of `UnifiedImportVisitor.visit_Module`: reset the scope level and
visit the body (no frame is pushed and no exception is caught here). -/
def iVisitModule (cfg : IConfig) (s : IState) (body : Module) : VRes IState :=
  iVisitStmts cfg { s with scopeLevel := 0 } body

/-- Model of `get_import_info`: project the tracked imports, deriving the
external package id as the first three path components. -/
def getImportInfo (s : IState) : List (String × ImportInfo) :=
  s.importModuleCalls.map (fun p =>
    let im := p.2
    let pkg :=
      if im.isExternal then
        let parts := splitSlash im.modulePath
        if parts.length ≥ 3 then
          some (String.intercalate "/" (parts.take 3))
        else none
      else none
    (p.1, ⟨im.modulePath, pkg⟩))

end KurtosisLint

namespace KurtosisLint

/-! ### Function/call analyzer (`unified_function_visitor.py`) -/

/-- Key of a Python dictionary as used for `kwdefaults`: the visitor builds
the mapping with string keys (parameter names) but later indexes it with an
integer position. -/
inductive KwKey where
  | kstr : String → KwKey
  | kint : Nat → KwKey
deriving DecidableEq, Repr

/-- Lookup in a `KwKey`-keyed association list (Python `d[k]`, as an
option; a `none` result corresponds to a raised `KeyError`). -/
def lookupKw (l : List (KwKey × Const)) (k : KwKey) : Option Const :=
  match l with
  | [] => none
  | (k', v) :: t => if k' = k then some v else lookupKw t k

/-- Modelled from the spec: the `FunctionSignature` record lives in
`analysis/visitors/common.py`, which is not among the sources.  Its fields
follow §3 of the specification and the construction in
`visit_FunctionDef`; in particular `kwdefaults` is stored exactly as built
there — a mapping keyed by keyword-only parameter names (the repository's
own test `test_function_collection` asserts this name-keyed shape), with
`Const.noneV` standing for "no default", a literal `None` default, or a
non-constant default. -/
structure FunctionSignature where
  name : String
  filePath : String
  lineno : Nat
  args : List String
  defaults : List Const
  kwonlyargs : List String
  kwdefaults : List (KwKey × Const)
  vararg : Option String
  kwarg : Option String
deriving DecidableEq, Repr

/-- Signature extraction from a function definition
(`visit_FunctionDef`, lines 102-147): constant defaults keep their value,
non-constant defaults become `None`; keyword-only defaults are keyed by
parameter name. -/
def extractSignature (filePath : String) (lineno : Nat) (name : String)
    (spec : ArgSpec) : FunctionSignature :=
  { name := name, filePath := filePath, lineno := lineno,
    args := spec.args,
    defaults := spec.defaults.map
      (fun d => match d with | .constE c => c | _ => Const.noneV),
    kwonlyargs := spec.kwonlyargs,
    kwdefaults := (spec.kwonlyargs.zip spec.kwDefaults).map
      (fun p => (KwKey.kstr p.1,
        match p.2 with | some (.constE c) => c | _ => Const.noneV)),
    vararg := spec.vararg,
    kwarg := spec.kwarg }

/-- Documentation flag: the first body statement is a string-literal
expression (`visit_FunctionDef`, lines 93-97). -/
def bodyIsDocumented (body : List Stmt) : Bool :=
  match body.head? with
  | some (.exprS _ (.constE (.strV _))) => true
  | _ => false

/-- Function identifier used in violation messages
(`_check_call_compatibility`, lines 544-549). -/
def mkFuncIdentifier (filePath : String) (contextFile : Option String)
    (name : String) : String :=
  match contextFile with
  | some cf => if cf ≠ "" ∧ cf ≠ filePath then pBasename cf ++ ":" ++ name
      else name
  | none => name

/-- Result of the compatibility check: the violations appended, and the
exception that aborted the check, if any. -/
structure CompatResult where
  violations : List (Nat × String)
  error : Option PyErr
deriving DecidableEq, Repr

/-- Message of the missing-required-positional violation, pluralized
exactly when more than one name is listed. -/
def missingPosMsg (miss : List String) (fid : String) : String :=
  "Missing required positional argument" ++
    (if miss.length > 1 then "s" else "") ++ " " ++
    String.intercalate ", " (miss.map (fun a => "'" ++ a ++ "'")) ++
    " in call to '" ++ fid ++ "'"

/-- Missing-argument collection loop (`_check_call_compatibility`,
lines 593-598): scan parameter positions from the provided count up to the
required count (the `range(provided_args, required_args)` index sequence),
keeping names not supplied as keywords. -/
def missingArgsLoop (sigArgs : List String) (kwNames : List String) :
    List Nat → List String
  | [] => []
  | i :: rest =>
    let tail := missingArgsLoop sigArgs kwNames rest
    match sigArgs[i]? with
    | some a => if a ∈ kwNames then tail else a :: tail
    | none => tail

/-- Too-many-positionals check (`_check_call_compatibility`,
lines 566-580): flagged unless the callee is variadic or the excess fits
into the declared keyword-only parameters. -/
def tooManyViolations (lineno callArgs : Nat) (sig : FunctionSignature)
    (funcIdentifier : String) : List (Nat × String) :=
  if callArgs > sig.args.length ∧ sig.vararg = none then
    if callArgs - sig.args.length ≤ sig.kwonlyargs.length then []
    else [(lineno, "Too many positional arguments in call to '" ++
      funcIdentifier ++ "'")]
  else []

/-- Count of effectively-provided positional slots
(`_check_call_compatibility`, lines 583-586): the positional-argument
count plus the number of keyword arguments whose name matches one of the
first `required` positional parameter names. -/
def providedCount (callArgs : Nat) (callKws : List (Option String))
    (sig : FunctionSignature) : Nat :=
  callArgs + (callKws.filter (fun kw =>
    match kw with
    | some n =>
      decide (n ∈ sig.args.take (sig.args.length - sig.defaults.length))
    | none => false)).length

/-- Names collected by the missing-argument loop
(`_check_call_compatibility`, lines 591-598). -/
def missingParams (callArgs : Nat) (callKws : List (Option String))
    (sig : FunctionSignature) : List String :=
  let required := sig.args.length - sig.defaults.length
  let provided := providedCount callArgs callKws sig
  if provided < required then
    missingArgsLoop sig.args (callKws.filterMap (fun x => x))
      (List.range' provided (required - provided))
  else []

/-- The missing-required-positionals violation
(`_check_call_compatibility`, lines 602-615): one violation when the
collected name list is non-empty. -/
def missingViolations (lineno callArgs : Nat)
    (callKws : List (Option String)) (sig : FunctionSignature)
    (funcIdentifier : String) : List (Nat × String) :=
  let missing := missingParams callArgs callKws sig
  if missing ≠ [] then [(lineno, missingPosMsg missing funcIdentifier)]
  else []

/-- Invalid-keyword check (`_check_call_compatibility`, lines 617-625):
one violation per keyword argument whose name is neither a positional nor
a keyword-only parameter, unless the callee has a catch-all keyword. -/
def invalidKwViolations (lineno : Nat) (callKws : List (Option String))
    (sig : FunctionSignature) (funcIdentifier : String) :
    List (Nat × String) :=
  callKws.filterMap (fun kw =>
    match kw with
    | some n =>
      if n ∉ (sig.args ++ sig.kwonlyargs) ∧ sig.kwarg = none then
        some (lineno, "Invalid keyword argument '" ++ n ++
          "' in call to '" ++ funcIdentifier ++ "'")
      else none
    | none => none)

/-- Keyword-only check loop (`_check_call_compatibility`, lines 628-634).
The loop indexes the name-keyed `kwdefaults` mapping with the integer
position `i`; the failed lookup is a `KeyError`, which aborts the loop. -/
def kwonlyLoop (kwdefaults : List (KwKey × Const)) (kwNames : List String)
    (funcIdentifier : String) (lineno : Nat) :
    List String → Nat → List (Nat × String) × Option PyErr
  | [], _ => ([], none)
  | a :: rest, i =>
    match lookupKw kwdefaults (KwKey.kint i) with
    | none => ([], some (PyErr.keyError i))
    | some c =>
      let here :=
        if c = Const.noneV ∧ a ∉ kwNames then
          [(lineno, "Missing required keyword-only argument '" ++ a ++
            "' in call to '" ++ funcIdentifier ++ "'")]
        else []
      let r := kwonlyLoop kwdefaults kwNames funcIdentifier lineno rest (i + 1)
      (here ++ r.1, r.2)

/-- Model of `_check_call_compatibility`: check a call (positional-argument
count and keyword names) against a signature.  Violations are produced in
source order: too-many-positionals, missing positionals, invalid keywords,
then the keyword-only loop (which may abort with a `KeyError`). -/
def checkCallCompatibility (lineno : Nat) (callArgs : Nat)
    (callKws : List (Option String)) (sig : FunctionSignature)
    (funcIdentifier : String) : CompatResult :=
  let r := kwonlyLoop sig.kwdefaults (callKws.filterMap (fun x => x))
    funcIdentifier lineno sig.kwonlyargs 0
  { violations :=
      tooManyViolations lineno callArgs sig funcIdentifier ++
      missingViolations lineno callArgs callKws sig funcIdentifier ++
      invalidKwViolations lineno callKws sig funcIdentifier ++
      r.1,
    error := r.2 }

/-- Documentation value carried by the ad-hoc function records passed to
the visibility analysis: a string (possibly empty) or the collected
documentation flag. -/
inductive DocV where
  | strD : String → DocV
  | boolD : Bool → DocV
deriving DecidableEq, Repr

/-- Ad-hoc per-function record built in `analyze_file` for the visibility
analysis (name, line, docstring). -/
structure FuncView where
  name : String
  line : Nat
  doc : DocV
deriving DecidableEq, Repr

/-- One iteration of the `analyze_function_visibility` loop: the
violations contributed for one function, given the set of function names
referenced from other modules. -/
def visibilityViolationsFor (calledFromOther : List String) (f : FuncView) :
    List (Nat × String) :=
  if sStarts f.name "_" then []
  else if sStarts f.name "test_" then []
  else
    let isDoc : Bool := match f.doc with
      | .strD s => decide (sStrip s ≠ "")
      | .boolD b => b
    let used : Bool := decide (f.name ∈ calledFromOther)
    if used && !isDoc then
      [(f.line, "Public function '" ++ f.name ++
        "' is used in other modules and should be documented")]
    else if !used && !isDoc then
      [(f.line, "Function '" ++ f.name ++
        "' is not documented and not used in other modules, consider making it private")]
    else []

/-- Model of `analyze_function_visibility`: skip privacy-marked and
test-marker functions; flag undocumented functions as
"should be documented" when referenced from another file, and as
"consider making it private" otherwise.  When the shared reference set is
absent or empty the visitor's own reference set is consulted instead. -/
def analyzeFunctionVisibility (checkVisibility : Bool) (filePath : String)
    (functions : List FuncView)
    (sharedCalls : Option (List (String × String)))
    (selfCalls : List (String × String)) : List (Nat × String) :=
  if ¬ checkVisibility then []
  else
    let ec := match sharedCalls with
      | some s => if s ≠ [] then s else selfCalls
      | none => selfCalls
    let calledFromOther : List String := ec.filterMap
      (fun p => if p.1 = filePath then some p.2 else none)
    functions.foldl
      (fun acc f => acc ++ visibilityViolationsFor calledFromOther f) []

end KurtosisLint

namespace KurtosisLint

/-- Immutable per-file configuration of the function visitor.  The builtin
name lists live in `analysis/visitors/common.py` (not among the sources)
and are taken here as parameters of the interface. -/
structure FConfig where
  filePath : String
  imports : List (String × ImportInfo)
  allFunctions : List (String × List (String × FunctionSignature))
  moduleToFile : List (String × String)
  checkCalls : Bool
  checkVisibility : Bool
  builtinFunctions : List String
  builtinModules : List String

/-- Mutable state of `UnifiedFunctionVisitor`.  `sharedExternalCalls`
models the `shared_data["external_calls"]` set the visitor also appends to
while walking. -/
structure FState where
  scopes : List (List String)
  varAssign : List (List (String × SymVal))
  functions : List (String × FunctionSignature)
  functionDocs : List (String × Bool)
  externalCalls : List (String × String)
  internalCalls : List String
  violations : List (Nat × String)
  sharedExternalCalls : List (String × String)

/-- Initial function-visitor state over a given shared reference set. -/
def FState.init (sharedExt : List (String × String)) : FState :=
  { scopes := [[]], varAssign := [[]], functions := [], functionDocs := [],
    externalCalls := [], internalCalls := [], violations := [],
    sharedExternalCalls := sharedExt }

/-- Scope push for the function visitor (inherited `_enter_scope`). -/
def fEnter (s : FState) : FState :=
  { s with scopes := [] :: s.scopes, varAssign := [] :: s.varAssign }

/-- Scope pop for the function visitor (inherited `_exit_scope`). -/
def fExit (s : FState) : FState :=
  { s with scopes := s.scopes.tail, varAssign := s.varAssign.tail }

/-- Model of `_add_to_current_scope` on the function-visitor state. -/
def fBind (s : FState) (v : String) : FState :=
  match s.scopes with
  | [] => s
  | h :: t => { s with scopes := addS h v :: t }

/-- Model of `_is_in_scope` on the function-visitor state. -/
def fIsInScope (s : FState) (v : String) : Bool :=
  s.scopes.any (fun fr => v ∈ fr)

/-- Parameter binding of `visit_FunctionDef` (function visitor). -/
def fAddParams (s : FState) (spec : ArgSpec) : FState :=
  let s := spec.args.foldl fBind s
  let s := match spec.vararg with | some v => fBind s v | none => s
  let s := spec.kwonlyargs.foldl fBind s
  match spec.kwarg with | some v => fBind s v | none => s

/-- Bind a `for` loop target for the function visitor. -/
def fBindForTarget (s : FState) (target : Expr) : FState :=
  match target with
  | .nameE v => fBind s v
  | .tupleE _ elts =>
    elts.foldl (fun s e => match e with | .nameE v => fBind s v | _ => s) s
  | _ => s

/-- Bind comprehension generator targets for the function visitor
(inherited `visit_ListComp`; non-name targets raise `AttributeError`). -/
def fAddCompTargets (s : FState) : List (Expr × Expr) → VRes FState
  | [] => .ok s
  | (t, _) :: rest =>
    match t with
    | .nameE v => fAddCompTargets (fBind s v) rest
    | .tupleE _ _ => .err (.attrError "'Tuple' object has no attribute 'id'") s
    | _ => .err (.attrError "object has no attribute 'id'") s

/-- Target-file resolution shared by `_check_function_reference` and
`_check_imported_module_call` (their identical resolution blocks): append
the dialect extension, try the direct module-to-file mapping, then the
normalized relative path, then the first file with a matching basename. -/
def resolveTargetFile (cfg : FConfig) (modulePath0 : String) :
    Option String :=
  let modulePath :=
    if ¬ sEnds modulePath0 ".star" then modulePath0 ++ ".star"
    else modulePath0
  match lookupA cfg.moduleToFile modulePath with
  | some t => some t
  | none =>
    let viaRel :=
      if sStarts modulePath "./" || sStarts modulePath "../" then
        lookupA cfg.moduleToFile
          (pNormpath (pJoin (pDirname cfg.filePath) modulePath))
      else none
    match viaRel with
    | some t => some t
    | none =>
      let bn := pBasename modulePath
      (cfg.moduleToFile.map Prod.snd).find? (fun p => pBasename p = bn)

/-- Model of `_check_function_reference`: record a cross-file reference
edge for a qualified value reference to a function of a resolved, analyzed
target file, skipping external packages and self-edges. -/
def checkFunctionReference (cfg : FConfig) (st : FState)
    (moduleName funcName : String) : FState :=
  match lookupA cfg.imports moduleName with
  | none => st
  | some info =>
    if info.packageId ≠ none then st
    else
      match resolveTargetFile cfg info.modulePath with
      | none => st
      | some targetFile =>
        match lookupA cfg.allFunctions targetFile with
        | none => st
        | some targetFns =>
          if memA targetFns funcName then
            if targetFile ≠ cfg.filePath then
              { st with
                externalCalls := addS st.externalCalls (targetFile, funcName),
                sharedExternalCalls :=
                  addS st.sharedExternalCalls (targetFile, funcName) }
            else st
          else st

/-- Model of `_check_imported_module_call`: resolve the qualified callee,
report resolution failures as violations, check compatibility against the
target signature (the compatibility check may raise), and record the
cross-file edge. -/
def checkImportedModuleCall (cfg : FConfig) (st : FState) (lineno : Nat)
    (moduleName funcName : String) (callArgs : Nat)
    (callKws : List (Option String)) : VRes FState :=
  match lookupA cfg.imports moduleName with
  | none => .ok st
  | some info =>
    if info.packageId ≠ none then .ok st
    else
      match resolveTargetFile cfg info.modulePath with
      | none =>
        .ok { st with violations := st.violations ++
          [(lineno, "Could not resolve module '" ++ moduleName ++
            "' for call to '" ++ moduleName ++ "." ++ funcName ++ "'")] }
      | some targetFile =>
        match lookupA cfg.allFunctions targetFile with
        | none =>
          .ok { st with violations := st.violations ++
            [(lineno, "Module '" ++ moduleName ++
              "' has not been analyzed for call to '" ++ moduleName ++ "." ++
              funcName ++ "'")] }
        | some targetFns =>
          match lookupA targetFns funcName with
          | none =>
            .ok { st with violations := st.violations ++
              [(lineno, "Call to non-existent function '" ++ funcName ++
                "' in module '" ++ moduleName ++ "'")] }
          | some sig =>
            let r := checkCallCompatibility lineno callArgs callKws sig
              (mkFuncIdentifier cfg.filePath (some targetFile) sig.name)
            let st := { st with violations := st.violations ++ r.violations }
            match r.error with
            | some e => .err e st
            | none =>
              if targetFile ≠ cfg.filePath then
                .ok { st with
                  externalCalls :=
                    addS st.externalCalls (targetFile, funcName),
                  sharedExternalCalls :=
                    addS st.sharedExternalCalls (targetFile, funcName) }
              else .ok st

/-- Reference checks run over a call's positional and keyword arguments
before the callee dispatch (`visit_Call`, lines 298-321). -/
def fCallArgRefs (cfg : FConfig) (st : FState) (args : List Expr)
    (kws : List Kw) : FState :=
  let st := args.foldl
    (fun st a =>
      match a with
      | .attrE (.nameE m) attr =>
        if memA cfg.imports m then checkFunctionReference cfg st m attr
        else st
      | _ => st)
    st
  kws.foldl
    (fun st kw =>
      match kw.value with
      | .attrE (.nameE m) attr =>
        if memA cfg.imports m then checkFunctionReference cfg st m attr
        else st
      | _ => st)
    st

/-- Callee dispatch of `visit_Call` (lines 323-419): bare-name callees are
checked against the local table or a unique cross-file match; qualified
callees on imported names go through `_check_imported_module_call`;
qualified callees on names that are in scope are skipped; anything else is
an undefined object. -/
def fDispatchCall (cfg : FConfig) (st : FState) (lineno : Nat) (f : Expr)
    (numArgs : Nat) (kwArgs : List (Option String)) : VRes FState :=
  match f with
  | .nameE fn =>
    if fn ∈ cfg.builtinFunctions then .ok st
    else
      match lookupA st.functions fn with
      | some sig =>
        let r := checkCallCompatibility lineno numArgs kwArgs sig
          (mkFuncIdentifier cfg.filePath none sig.name)
        let st := { st with violations := st.violations ++ r.violations }
        match r.error with
        | some e => .err e st
        | none => .ok { st with internalCalls := addS st.internalCalls fn }
      | none =>
        let matching := cfg.allFunctions.filter (fun p => memA p.2 fn)
        match matching with
        | [] => .ok st
        | [(fp, fns)] =>
          match lookupA fns fn with
          | some sig =>
            let r := checkCallCompatibility lineno numArgs kwArgs sig
              (mkFuncIdentifier cfg.filePath (some fp) sig.name)
            let st := { st with violations := st.violations ++ r.violations }
            match r.error with
            | some e => .err e st
            | none =>
              if fp ≠ cfg.filePath then
                .ok { st with
                  externalCalls := addS st.externalCalls (fp, fn),
                  sharedExternalCalls :=
                    addS st.sharedExternalCalls (fp, fn) }
              else .ok st
          | none => .ok st
        | _ :: _ :: _ =>
          match (matching.map Prod.fst).find? (fun fp => fp ≠ cfg.filePath) with
          | some fp =>
            .ok { st with
              externalCalls := addS st.externalCalls (fp, fn),
              sharedExternalCalls := addS st.sharedExternalCalls (fp, fn) }
          | none => .ok st
  | .attrE (.nameE m) fn =>
    if m ∈ cfg.builtinModules then .ok st
    else if memA cfg.imports m then
      checkImportedModuleCall cfg st lineno m fn numArgs kwArgs
    else if fIsInScope st m then .ok st
    else
      .ok { st with violations := st.violations ++
        [(lineno, "Invalid object '" ++ m ++ "' in call to '" ++ m ++ "." ++
          fn ++ "': object is not defined")] }
  | _ => .ok st

mutual
/-- Model of `UnifiedFunctionVisitor.visit` on a statement. -/
def fVisitStmt (cfg : FConfig) (st : FState) : Stmt → VRes FState
  | .exprS _ e => fVisitExpr cfg st e
  | .returnS _ v =>
    match v with
    | some e => fVisitExpr cfg st e
    | none => .ok st
  | .assignS lineno targets value =>
    (fVisitExpr cfg st value).bind fun st =>
    let st := match value with
      | .attrE (.nameE m) attr =>
        if memA cfg.imports m then checkFunctionReference cfg st m attr
        else st
      | _ => st
    fVisitExprs cfg st targets
  | .funcDefS lineno name spec body =>
    let st := { st with
      functionDocs := insertA st.functionDocs name (bodyIsDocumented body),
      functions := insertA st.functions name
        (extractSignature cfg.filePath lineno name spec) }
    let st := fAddParams (fEnter st) spec
    (fVisitStmts cfg st body).bind fun st => .ok (fExit st)
  | .forS _ target iter body orelse =>
    (fVisitExpr cfg st iter).bind fun st =>
    let st := fBindForTarget (fEnter st) target
    (fVisitStmts cfg st body).bind fun st =>
    (fVisitStmts cfg st orelse).bind fun st => .ok (fExit st)
  | .ifS _ test body orelse =>
    (fVisitExpr cfg st test).bind fun st =>
    (fVisitStmts cfg (fEnter st) body).bind fun st =>
    (fVisitStmts cfg (fEnter (fExit st)) orelse).bind fun st =>
      .ok (fExit st)

/-- Sequential visit of a statement list by the function visitor. -/
def fVisitStmts (cfg : FConfig) (st : FState) : List Stmt → VRes FState
  | [] => .ok st
  | s :: rest => (fVisitStmt cfg st s).bind fun st => fVisitStmts cfg st rest

/-- Model of `UnifiedFunctionVisitor.visit` on an expression.  A call is
only processed when call checking is enabled (`visit_Call` returns
immediately otherwise, without visiting its children); container literals
record qualified function references. -/
def fVisitExpr (cfg : FConfig) (st : FState) : Expr → VRes FState
  | .nameE _ => .ok st
  | .constE _ => .ok st
  | .callE lineno f args kws =>
    if ¬ cfg.checkCalls then .ok st
    else
      let st := fCallArgRefs cfg st args kws
      (fDispatchCall cfg st lineno f args.length (kws.map Kw.arg)).bind
        fun st =>
      (fVisitExprs cfg st args).bind fun st => fVisitKwVals cfg st kws
  | .attrE obj _ => fVisitExpr cfg st obj
  | .tupleE _ elts => fVisitEltsRef cfg st elts
  | .listE _ elts => fVisitEltsRef cfg st elts
  | .dictE _ entries => fVisitDictEntries cfg st entries
  | .compE elt gens =>
    match fAddCompTargets (fEnter st) gens with
    | .err e st => .err e st
    | .ok st => (fVisitExpr cfg st elt).bind fun st => .ok (fExit st)

/-- Sequential visit of an expression list by the function visitor. -/
def fVisitExprs (cfg : FConfig) (st : FState) : List Expr → VRes FState
  | [] => .ok st
  | e :: rest =>
    (fVisitExpr cfg st e).bind fun st => fVisitExprs cfg st rest

/-- Visit list/tuple elements, recording qualified function references
(`visit_List` / `visit_Tuple`). -/
def fVisitEltsRef (cfg : FConfig) (st : FState) : List Expr → VRes FState
  | [] => .ok st
  | e :: rest =>
    (fVisitExpr cfg st e).bind fun st =>
    let st := match e with
      | .attrE (.nameE m) attr =>
        if memA cfg.imports m then checkFunctionReference cfg st m attr
        else st
      | _ => st
    fVisitEltsRef cfg st rest

/-- Visit dictionary entries, recording qualified function references in
values (`visit_Dict`). -/
def fVisitDictEntries (cfg : FConfig) (st : FState) :
    List (Expr × Expr) → VRes FState
  | [] => .ok st
  | (k, v) :: rest =>
    (fVisitExpr cfg st k).bind fun st =>
    (fVisitExpr cfg st v).bind fun st =>
    let st := match v with
      | .attrE (.nameE m) attr =>
        if memA cfg.imports m then checkFunctionReference cfg st m attr
        else st
      | _ => st
    fVisitDictEntries cfg st rest

/-- Sequential visit of keyword-argument values by the function visitor. -/
def fVisitKwVals (cfg : FConfig) (st : FState) : List Kw → VRes FState
  | [] => .ok st
  | .mk _ v :: rest =>
    (fVisitExpr cfg st v).bind fun st => fVisitKwVals cfg st rest
end

/-- Model of the function visitor's inherited `visit_Module`. -/
def fVisitModule (cfg : FConfig) (st : FState) (body : Module) :
    VRes FState :=
  (fVisitStmts cfg (fEnter st) body).bind fun st => .ok (fExit st)

/-- Ad-hoc function records built in `analyze_file` (lines 124-133): the
docstring is the collected documentation flag, or the empty string when
the name is absent from `function_docs`. -/
def mkFuncViews (st : FState) : List FuncView :=
  st.functions.map (fun p =>
    { name := p.1, line := p.2.lineno,
      doc := match lookupA st.functionDocs p.1 with
        | some b => DocV.boolD b
        | none => DocV.strD "" })

end KurtosisLint

namespace KurtosisLint

/-! ### Orchestrator (`unified_analyzer.py`) -/

/-- Environment of the analyzer: the parser, the file-system oracle, the
externally supplied workspace-root discovery, and the builtin-name lists
(all external collaborators specified at their interface). -/
structure Config where
  parse : String → Except String Module
  isFile : String → Bool
  findWorkspaceRoot : String → String
  builtinFunctions : List String
  builtinModules : List String

/-- Shared analysis state threaded through the passes
(`shared_data` in `analyze_files`). -/
structure Shared where
  allFunctions : List (String × List (String × FunctionSignature))
  moduleToFile : List (String × String)
  importsMap : List (String × List (String × ImportInfo))
  externalCalls : List (String × String)
deriving DecidableEq, Repr

/-- The check toggles (`checks` dictionary). -/
structure Checks where
  calls : Bool
  functionVisibility : Bool
  importNaming : Bool
deriving DecidableEq, Repr

/-- Body of `analyze_file` inside its `try` block.  An escaping exception
carries its text together with the shared state as mutated so far (the
shared tables are updated in place before the function visitor runs). -/
def analyzeFileInner (cfg : Config) (f : String) (checks : Checks)
    (shared : Shared) (ws : String) :
    Except (String × Shared) (Shared × List (Nat × String)) :=
  match cfg.parse f with
  | .error e => .error (e, shared)
  | .ok tree =>
    let icfg : IConfig :=
      { filePath := f, workspaceRoot := some ws, checkFileExists := true,
        isFile := cfg.isFile }
    match iVisitModule icfg IState.init tree with
    | .err e _ => .error (e.toMsg, shared)
    | .ok ist =>
      let v1 := if checks.importNaming then ist.violations else []
      let info := getImportInfo ist
      let shared := { shared with importsMap := insertA shared.importsMap f info }
      let m2f := ist.importModuleCalls.foldl
        (fun m p =>
          match p.2.resolvedPath with
          | some rp => insertA m p.2.modulePath rp
          | none => m)
        shared.moduleToFile
      let shared := { shared with moduleToFile := m2f }
      if checks.calls ∨ checks.functionVisibility then
        let imports := (lookupA shared.importsMap f).getD []
        let fcfg : FConfig :=
          { filePath := f, imports := imports,
            allFunctions := shared.allFunctions,
            moduleToFile := shared.moduleToFile,
            checkCalls := checks.calls,
            checkVisibility := checks.functionVisibility,
            builtinFunctions := cfg.builtinFunctions,
            builtinModules := cfg.builtinModules }
        match fVisitModule fcfg (FState.init shared.externalCalls) tree with
        | .err e fs =>
          .error (e.toMsg, { shared with externalCalls := fs.sharedExternalCalls })
        | .ok fs =>
          let shared := { shared with externalCalls := fs.sharedExternalCalls }
          let shared :=
            if fs.functions ≠ [] then
              { shared with
                allFunctions := insertA shared.allFunctions f fs.functions }
            else shared
          let shared :=
            if checks.functionVisibility then
              { shared with
                externalCalls := fs.externalCalls.foldl addS shared.externalCalls }
            else shared
          let v2 := v1 ++ fs.violations
          let v3 :=
            if checks.functionVisibility then
              v2 ++ analyzeFunctionVisibility checks.functionVisibility f
                (mkFuncViews fs) (some shared.externalCalls) fs.externalCalls
            else v2
          .ok (shared, v3)
      else .ok (shared, v1)

/-- Model of `analyze_file` with the workspace root already resolved: any
exception is caught at the file boundary and becomes one synthetic
violation at line 0 carrying the error text. -/
def analyzeFileCaught (cfg : Config) (f : String) (checks : Checks)
    (shared : Shared) (ws : String) : Shared × List (Nat × String) :=
  match analyzeFileInner cfg f checks shared ws with
  | .error (m, sh) => (sh, [(0, "Error analyzing file " ++ f ++ ": " ++ m)])
  | .ok r => r

/-- Model of `analyze_file` (top entry): resolve the workspace root when it
was not supplied. -/
def analyzeFile (cfg : Config) (f : String) (checks : Checks)
    (shared : Shared) (root : Option String) :
    Shared × List (Nat × String) :=
  let ws := match root with
    | some w => w
    | none => cfg.findWorkspaceRoot f
  analyzeFileCaught cfg f checks shared ws

/-- Module-path lookup table built by `analyze_files` before the passes:
for every `.star` input its own path, its workspace-relative path (with
and without the leading separator), its basename, and the relative paths
between distinct inputs (with and without a `./` prefix). -/
def setupModuleTable (paths : List String) (ws : String) :
    List (String × String) :=
  let m1 := paths.foldl
    (fun m p =>
      if ¬ sEnds p ".star" then m
      else
        let m := insertA m p p
        let m :=
          if ws ≠ "" ∧ sStarts p ws then
            let rel := lstripSlash (sDrop p ws.length)
            insertA (insertA m rel p) ("/" ++ rel) p
          else m
        insertA m (pBasename p) p)
    []
  paths.foldl
    (fun m src =>
      if ¬ sEnds src ".star" then m
      else
        let srcDir := pDirname src
        paths.foldl
          (fun m tgt =>
            if src = tgt ∨ ¬ sEnds tgt ".star" then m
            else
              let rel := pRelpath tgt srcDir
              insertA (insertA m rel tgt) ("./" ++ rel) tgt)
          m)
    m1

/-- Fresh shared state of a run, with the module table prebuilt. -/
def initialShared (paths : List String) (ws : String) : Shared :=
  { allFunctions := [], moduleToFile := setupModuleTable paths ws,
    importsMap := [], externalCalls := [] }

/-- Check configuration of pass 1: call checking on, visibility off, the
import-naming toggle left as requested. -/
def firstPassChecks (checks : Checks) : Checks :=
  { checks with calls := true, functionVisibility := false }

/-- Pass 1 of the protocol: analyze every file for its side effects on the
shared state only; the returned violation lists are discarded. -/
def passOneShared (cfg : Config) (paths : List String) (checks : Checks)
    (ws : String) : Shared :=
  paths.foldl
    (fun sh p => (analyzeFileCaught cfg p (firstPassChecks checks) sh ws).1)
    (initialShared paths ws)

/-- Model of `analyze_files` with a resolved workspace root: pass 1, then
pass 2 collecting only non-empty per-file violation lists. -/
def analyzeFilesGo (cfg : Config) (paths : List String) (checks : Checks)
    (ws : String) : List (String × List (Nat × String)) :=
  (paths.foldl
    (fun acc p =>
      let r := analyzeFileCaught cfg p checks acc.1 ws
      (r.1, if r.2 ≠ [] then insertA acc.2 p r.2 else acc.2))
    (passOneShared cfg paths checks ws, [])).2

/-- Model of `analyze_files`: an absent workspace root is discovered from
the first input file; indexing an empty input list raises `IndexError`
before any analysis begins. -/
def analyzeFiles (cfg : Config) (paths : List String) (checks : Checks)
    (root : Option String) :
    Except String (List (String × List (Nat × String))) :=
  match root with
  | some ws => .ok (analyzeFilesGo cfg paths checks ws)
  | none =>
    match paths with
    | [] => .error "list index out of range"
    | p :: _ => .ok (analyzeFilesGo cfg paths checks (cfg.findWorkspaceRoot p))

/-- The two-pass protocol as described by the specification (§4.5): pass 1
contributes every file's tables to the shared state and its violations are
discarded; pass 2 re-analyzes every file against the accumulated state and
reports its output, one entry per input file. -/
def twoPassAll (cfg : Config) (paths : List String) (checks : Checks)
    (ws : String) : List (String × List (Nat × String)) :=
  (paths.foldl
    (fun acc p =>
      let r := analyzeFileCaught cfg p checks acc.1 ws
      (r.1, acc.2 ++ [(p, r.2)]))
    (passOneShared cfg paths checks ws, [])).2

end KurtosisLint

namespace KurtosisLint

/-! ### General lemmas about the association-list and set operations -/

theorem lookupA_insertA {α : Type} (l : List (String × α)) (k g : String)
    (v : α) :
    lookupA (insertA l k v) g = if k = g then some v else lookupA l g := by
  induction l with
  | nil => simp [insertA, lookupA]
  | cons hd t ih =>
    obtain ⟨k1, v1⟩ := hd
    by_cases hk : k1 = k
    · subst hk
      simp only [insertA, if_pos rfl, lookupA]
      by_cases hg : k1 = g <;> simp [hg]
    · simp only [insertA, if_neg hk]
      by_cases hg : k1 = g
      · subst hg
        have hkg : ¬ k = k1 := fun h => hk h.symm
        simp [lookupA, if_neg hkg]
      · simp [lookupA, if_neg hg, ih]

theorem insertA_not_mem {α : Type} (l : List (String × α)) (k : String)
    (v : α) (h : k ∉ l.map Prod.fst) : insertA l k v = l ++ [(k, v)] := by
  induction l with
  | nil => simp [insertA]
  | cons hd t ih =>
    obtain ⟨k1, v1⟩ := hd
    simp only [List.map_cons, List.mem_cons] at h
    push_neg at h
    have hne : k1 ≠ k := fun he => h.1 he.symm
    simp only [insertA, if_neg hne, List.cons_append, List.cons.injEq,
      true_and]
    exact ih h.2

/-! ### C5: cycle safety of alias resolution -/

/-- Name reached after following `n` alias edges from a starting name. -/
def aliasChain (aliases : List (String × String)) (v : String) :
    Nat → Option String
  | 0 => some v
  | n + 1 =>
    match aliasChain aliases v n with
    | some w => lookupA aliases w
    | none => none

theorem aliasChain_shift (aliases : List (String × String)) (v src : String)
    (h : lookupA aliases v = some src) :
    ∀ n, aliasChain aliases src n = aliasChain aliases v (n + 1) := by
  intro n
  induction n with
  | zero => simp [aliasChain, h]
  | succ m ih =>
    simp only [aliasChain]
    rw [ih]
    rfl

theorem importVar_false_aux (importVars : List String)
    (aliases : List (String × String)) :
    ∀ (fuel : Nat) (v : String) (visited : List String),
      ((aliases.map Prod.fst).filter (fun k => decide (k ∉ visited))).length ≤
        fuel →
      (∀ n w, aliasChain aliases v n = some w → w ∉ importVars) →
      isImportModuleVar importVars aliases v visited = false := by
  intro fuel
  induction fuel with
  | zero =>
    intro v visited hm hch
    unfold isImportModuleVar
    by_cases hvis : v ∈ visited
    · simp [hvis]
    · have hniv : v ∉ importVars := hch 0 v rfl
      simp only [dif_neg hvis, if_neg hniv]
      cases hlk : lookupA aliases v with
      | none => rfl
      | some src =>
        exfalso
        have hkey : v ∈ aliases.map Prod.fst := lookupA_some_mem _ _ _ hlk
        have hmem : v ∈ (aliases.map Prod.fst).filter
            (fun k => decide (k ∉ visited)) :=
          List.mem_filter.mpr ⟨hkey, by simpa using hvis⟩
        have hpos := List.length_pos.mpr (List.ne_nil_of_mem hmem)
        omega
  | succ fl ih =>
    intro v visited hm hch
    unfold isImportModuleVar
    by_cases hvis : v ∈ visited
    · simp [hvis]
    · have hniv : v ∉ importVars := hch 0 v rfl
      simp only [dif_neg hvis, if_neg hniv]
      cases hlk : lookupA aliases v with
      | none => rfl
      | some src =>
        show isImportModuleVar importVars aliases src (v :: visited) = false
        apply ih src (v :: visited)
        · have hlt := length_filter_lt_of_mem (aliases.map Prod.fst)
            (fun k => decide (k ∉ v :: visited))
            (fun k => decide (k ∉ visited))
            (by
              intro a ha
              simp at ha ⊢
              exact ha.2)
            v (lookupA_some_mem _ _ _ hlk) (by simp) (by simpa using hvis)
          omega
        · intro n w hc hw
          apply hch (n + 1) w ?_ hw
          rw [← aliasChain_shift aliases v src hlk n]
          exact hc

/-- C5: on any alias graph whose chain from the queried name never reaches
a variable directly bound to an import — in particular on any chain that
runs into a cycle, including a direct self-alias and multi-node cycles of
arbitrary length — the import query returns `false`.  The query is a total
Lean function (its termination proof is the visited-set argument of
`_is_import_module_var`), so it terminates on every input and raises
nothing. -/
theorem claim_C5_alias_cycle_resolves_false (importVars : List String)
    (aliases : List (String × String)) (v : String)
    (h : ∀ n w, aliasChain aliases v n = some w → w ∉ importVars) :
    isImportModuleVar importVars aliases v [] = false :=
  importVar_false_aux importVars aliases
    ((aliases.map Prod.fst).filter (fun k => decide (k ∉ ([] : List String)))).length
    v [] (Nat.le_refl _) h

/-- Witness for C5: a five-node alias cycle and a direct self-alias, with
no import-bound variables, both resolve to `false`. -/
theorem claim_C5_witness :
    isImportModuleVar []
      [("a", "b"), ("b", "c"), ("c", "d"), ("d", "e"), ("e", "a")] "a" [] =
        false ∧
    isImportModuleVar [] [("x", "x")] "x" [] = false :=
  ⟨claim_C5_alias_cycle_resolves_false _ _ _
      (fun _ w _ => List.not_mem_nil w),
   claim_C5_alias_cycle_resolves_false _ _ _
      (fun _ w _ => List.not_mem_nil w)⟩

end KurtosisLint

namespace KurtosisLint

/-! ### C8: module-path classification -/

/-- C8: a module path is classified external exactly when it carries the
external-package prefix (`github.com/`, the concrete host/org/repo form);
otherwise it is absolute exactly when it starts with `/`; otherwise
relative exactly when it starts with `./` or `../`; an external path never
receives a resolved path; and a bare path is resolved by joining the
workspace root. -/
theorem claim_C8_path_classification (cfg : IConfig) (p : String) :
    ((resolveModulePath cfg p).2.1 = sStarts p "github.com/") ∧
    (sStarts p "github.com/" = false →
      (resolveModulePath cfg p).2.2.1 = sStarts p "/") ∧
    (sStarts p "github.com/" = false →
      (resolveModulePath cfg p).2.2.2 =
        (sStarts p "./" || sStarts p "../")) ∧
    (sStarts p "github.com/" = true → (resolveModulePath cfg p).1 = none) ∧
    (∀ w, cfg.workspaceRoot = some w → sStarts p "github.com/" = false →
      sStarts p "/" = false → (sStarts p "./" || sStarts p "../") = false →
      (resolveModulePath cfg p).1 = some (pJoin w p)) := by
  by_cases hx : sStarts p "github.com/" = true
  · refine ⟨?_, ?_, ?_, ?_, ?_⟩
    · simp [resolveModulePath, hx]
    · intro hc
      rw [hx] at hc
      cases hc
    · intro hc
      rw [hx] at hc
      cases hc
    · intro _
      simp [resolveModulePath, hx]
    · intro w _ hc
      rw [hx] at hc
      cases hc
  · have hx' : sStarts p "github.com/" = false := by
      cases hv : sStarts p "github.com/"
      · rfl
      · exact absurd hv hx
    by_cases habs : sStarts p "/" = true
    · refine ⟨?_, ?_, ?_, ?_, ?_⟩
      · cases hw : cfg.workspaceRoot with
        | none => simp [resolveModulePath, hx', habs, hw]
        | some w =>
          by_cases hwe : w = "" <;>
            simp [resolveModulePath, hx', habs, hw, hwe]
      · intro _
        cases hw : cfg.workspaceRoot with
        | none => simp [resolveModulePath, hx', habs, hw]
        | some w =>
          by_cases hwe : w = "" <;>
            simp [resolveModulePath, hx', habs, hw, hwe]
      · intro _
        cases hw : cfg.workspaceRoot with
        | none => simp [resolveModulePath, hx', habs, hw]
        | some w =>
          by_cases hwe : w = "" <;>
            simp [resolveModulePath, hx', habs, hw, hwe]
      · intro hc
        rw [hx'] at hc
        cases hc
      · intro w _ _ hc
        rw [habs] at hc
        cases hc
    · have habs' : sStarts p "/" = false := by
        cases hv : sStarts p "/"
        · rfl
        · exact absurd hv habs
      by_cases hrel : (sStarts p "./" || sStarts p "../") = true
      · refine ⟨?_, ?_, ?_, ?_, ?_⟩
        · simp [resolveModulePath, hx', habs', hrel]
        · intro _
          simp [resolveModulePath, hx', habs', hrel]
        · intro _
          simp [resolveModulePath, hx', habs', hrel]
        · intro hc
          rw [hx'] at hc
          cases hc
        · intro w _ _ _ hc
          rw [hrel] at hc
          cases hc
      · have hrel' : (sStarts p "./" || sStarts p "../") = false := by
          cases hv : (sStarts p "./" || sStarts p "../")
          · rfl
          · exact absurd hv hrel
        refine ⟨?_, ?_, ?_, ?_, ?_⟩
        · cases hw : cfg.workspaceRoot <;>
            simp [resolveModulePath, hx', habs', hrel', hw]
        · intro _
          cases hw : cfg.workspaceRoot <;>
            simp [resolveModulePath, hx', habs', hrel', hw]
        · intro _
          cases hw : cfg.workspaceRoot <;>
            simp [resolveModulePath, hx', habs', hrel', hw]
        · intro hc
          rw [hx'] at hc
          cases hc
        · intro w hw _ _ _
          simp [resolveModulePath, hx', habs', hrel', hw]

/-- Concrete import-visitor configuration used by witnesses. -/
def icfgW : IConfig :=
  { filePath := "/ws/imports.star", workspaceRoot := some "/ws",
    checkFileExists := true, isFile := fun _ => true }

/-- Witness for C8: a bare workspace-relative path under a concrete
configuration is classified non-external, non-absolute, non-relative, and
resolves by joining the workspace root. -/
theorem claim_C8_witness :
    sStarts "pkg/c.star" "github.com/" = false ∧
    sStarts "pkg/c.star" "/" = false ∧
    (sStarts "pkg/c.star" "./" || sStarts "pkg/c.star" "../") = false ∧
    (resolveModulePath icfgW "pkg/c.star").1 =
      some (pJoin "/ws" "pkg/c.star") :=
  ⟨rfl, rfl, rfl,
   (claim_C8_path_classification icfgW "pkg/c.star").2.2.2.2 "/ws" rfl rfl
     rfl rfl⟩

end KurtosisLint

namespace KurtosisLint

/-! ### C10: empty input list -/

/-- C10: calling the multi-file entry point with an empty path list and no
workspace root fails with an uncaught `IndexError` raised by indexing the
first element of the empty list, before any analysis begins; with a
workspace root supplied, the empty list yields the empty mapping. -/
theorem claim_C10_empty_paths (cfg : Config) (checks : Checks) (r : String) :
    analyzeFiles cfg [] checks none = .error "list index out of range" ∧
    analyzeFiles cfg [] checks (some r) = .ok [] :=
  ⟨rfl, rfl⟩

end KurtosisLint

namespace KurtosisLint

/-! ### C9: scope-stack discipline of the walker -/

theorem VRes.bind_ok {σ : Type} {r : VRes σ} {f : σ → VRes σ} {s' : σ}
    (h : r.bind f = .ok s') : ∃ m, r = .ok m ∧ f m = .ok s' := by
  cases r with
  | ok m => exact ⟨m, rfl, h⟩
  | err e m => simp [VRes.bind] at h

theorem bEnter_scopes_len (s : BState) :
    (bEnter s).scopes.length = s.scopes.length + 1 := rfl

theorem bExit_scopes_len (s : BState) :
    (bExit s).scopes.length = s.scopes.length - 1 := by
  simp [bExit]

theorem bBind_scopes_len (s : BState) (v : String) :
    (bBind s v).scopes.length = s.scopes.length := by
  cases h : s.scopes <;> simp [bBind, h]

theorem bBindVal_scopes_len (s : BState) (v : String) (val : SymVal) :
    (bBindVal s v val).scopes.length = s.scopes.length := by
  cases h : s.varAssign <;> simp [bBindVal, h]

theorem bHandleNameAssign_len (s : BState) (v : String) (value : Expr) :
    (bHandleNameAssign s v value).scopes.length = s.scopes.length := by
  unfold bHandleNameAssign
  cases value <;> simp [bBindVal_scopes_len, bBind_scopes_len]

theorem bHandleTupleElt_len (s : BState) (elt value : Expr) (i : Nat) :
    (bHandleTupleElt s elt value i).scopes.length = s.scopes.length := by
  unfold bHandleTupleElt
  cases elt <;> try rfl
  case nameE v =>
    cases value <;>
      try simp [bBindVal_scopes_len, bBind_scopes_len]
    case tupleE ln elts =>
      split <;> simp [bBindVal_scopes_len, bBind_scopes_len]

theorem foldl_preserves_len {β : Type} (f : BState → β → BState)
    (h : ∀ s b, (f s b).scopes.length = s.scopes.length) :
    ∀ (l : List β) (s : BState),
      ((l.foldl f s).scopes.length = s.scopes.length) := by
  intro l
  induction l with
  | nil => intro s; rfl
  | cons b t ih =>
    intro s
    simp only [List.foldl_cons]
    rw [ih (f s b), h s b]

theorem bAddParams_len (s : BState) (spec : ArgSpec) :
    (bAddParams s spec).scopes.length = s.scopes.length := by
  unfold bAddParams
  cases hv : spec.vararg <;> cases hk : spec.kwarg <;>
    simp [hv, hk, foldl_preserves_len bBind bBind_scopes_len,
      bBind_scopes_len]

theorem bBindForTarget_len (s : BState) (target : Expr) :
    (bBindForTarget s target).scopes.length = s.scopes.length := by
  unfold bBindForTarget
  cases target <;> try rfl
  case nameE v => exact bBind_scopes_len s v
  case tupleE ln elts =>
    apply foldl_preserves_len
    intro s e
    cases e <;> simp [bBind_scopes_len]

theorem bAssignTargets_len (value : Expr) (s : BState)
    (targets : List Expr) :
    (bAssignTargets value s targets).scopes.length = s.scopes.length := by
  unfold bAssignTargets
  apply foldl_preserves_len
  intro s t
  cases t <;> try rfl
  case nameE v => exact bHandleNameAssign_len s v value
  case tupleE ln elts =>
    apply foldl_preserves_len
    intro s p
    exact bHandleTupleElt_len s p.2 value p.1

theorem bAddCompTargets_ok_len :
    ∀ (gens : List (Expr × Expr)) (s s' : BState),
      bAddCompTargets s gens = .ok s' →
      s'.scopes.length = s.scopes.length := by
  intro gens
  induction gens with
  | nil =>
    intro s s' h
    cases h
    rfl
  | cons g rest ih =>
    intro s s' h
    obtain ⟨t, _⟩ := g
    cases t with
    | nameE v =>
      have := ih (bBind s v) s' h
      rw [this, bBind_scopes_len]
    | _ => cases h

mutual
theorem bVisitStmt_ok_len (s : BState) (st : Stmt) (s' : BState)
    (h : bVisitStmt s st = .ok s') : s'.scopes.length = s.scopes.length := by
  cases st with
  | exprS ln e => exact bVisitExpr_ok_len s e s' h
  | returnS ln v =>
    cases v with
    | some e => exact bVisitExpr_ok_len s e s' h
    | none =>
      cases h
      rfl
  | assignS ln targets value =>
    obtain ⟨m, hm, hf⟩ := VRes.bind_ok h
    cases hf
    rw [bAssignTargets_len, bVisitExpr_ok_len s value m hm]
  | funcDefS ln name spec body =>
    obtain ⟨m, hm, hf⟩ := VRes.bind_ok h
    cases hf
    have h1 := bVisitStmts_ok_len _ body m hm
    rw [bExit_scopes_len, h1, bAddParams_len, bEnter_scopes_len]
    omega
  | forS ln target iter body orelse =>
    obtain ⟨m1, hm1, hf1⟩ := VRes.bind_ok h
    obtain ⟨m2, hm2, hf2⟩ := VRes.bind_ok hf1
    obtain ⟨m3, hm3, hf3⟩ := VRes.bind_ok hf2
    cases hf3
    have h1 := bVisitExpr_ok_len s iter m1 hm1
    have h2 := bVisitStmts_ok_len _ body m2 hm2
    have h3 := bVisitStmts_ok_len _ orelse m3 hm3
    rw [bExit_scopes_len, h3, h2, bBindForTarget_len, bEnter_scopes_len, h1]
    omega
  | ifS ln test body orelse =>
    obtain ⟨m1, hm1, hf1⟩ := VRes.bind_ok h
    obtain ⟨m2, hm2, hf2⟩ := VRes.bind_ok hf1
    obtain ⟨m3, hm3, hf3⟩ := VRes.bind_ok hf2
    cases hf3
    have h1 := bVisitExpr_ok_len s test m1 hm1
    have h2 := bVisitStmts_ok_len _ body m2 hm2
    have h3 := bVisitStmts_ok_len _ orelse m3 hm3
    rw [bExit_scopes_len, h3, bEnter_scopes_len, bExit_scopes_len, h2,
      bEnter_scopes_len, h1]
    omega

theorem bVisitStmts_ok_len (s : BState) (l : List Stmt) (s' : BState)
    (h : bVisitStmts s l = .ok s') : s'.scopes.length = s.scopes.length := by
  cases l with
  | nil =>
    cases h
    rfl
  | cons st rest =>
    obtain ⟨m, hm, hf⟩ := VRes.bind_ok h
    rw [bVisitStmts_ok_len m rest s' hf, bVisitStmt_ok_len s st m hm]

theorem bVisitExpr_ok_len (s : BState) (e : Expr) (s' : BState)
    (h : bVisitExpr s e = .ok s') : s'.scopes.length = s.scopes.length := by
  cases e with
  | nameE v =>
    cases h
    rfl
  | constE c =>
    cases h
    rfl
  | callE ln f args kws =>
    obtain ⟨m1, hm1, hf1⟩ := VRes.bind_ok h
    obtain ⟨m2, hm2, hf2⟩ := VRes.bind_ok hf1
    rw [bVisitKws_ok_len m2 kws s' hf2, bVisitExprs_ok_len m1 args m2 hm2,
      bVisitExpr_ok_len s f m1 hm1]
  | attrE obj a => exact bVisitExpr_ok_len s obj s' h
  | tupleE ln elts => exact bVisitExprs_ok_len s elts s' h
  | listE ln elts => exact bVisitExprs_ok_len s elts s' h
  | dictE ln entries => exact bVisitPairs_ok_len s entries s' h
  | compE elt gens =>
    have h' : (match bAddCompTargets (bEnter s) gens with
        | .err e s => VRes.err e s
        | .ok s =>
          (bVisitExpr s elt).bind fun s => .ok (bExit s)) = .ok s' := h
    revert h'
    cases hac : bAddCompTargets (bEnter s) gens with
    | err e m =>
      intro h'
      cases h'
    | ok m =>
      intro h'
      obtain ⟨m2, hm2, hf2⟩ := VRes.bind_ok h'
      cases hf2
      have h1 := bAddCompTargets_ok_len gens (bEnter s) m hac
      have h2 := bVisitExpr_ok_len m elt m2 hm2
      rw [bExit_scopes_len, h2, h1, bEnter_scopes_len]
      omega

theorem bVisitExprs_ok_len (s : BState) (l : List Expr) (s' : BState)
    (h : bVisitExprs s l = .ok s') : s'.scopes.length = s.scopes.length := by
  cases l with
  | nil =>
    cases h
    rfl
  | cons e rest =>
    obtain ⟨m, hm, hf⟩ := VRes.bind_ok h
    rw [bVisitExprs_ok_len m rest s' hf, bVisitExpr_ok_len s e m hm]

theorem bVisitKws_ok_len (s : BState) (l : List Kw) (s' : BState)
    (h : bVisitKws s l = .ok s') : s'.scopes.length = s.scopes.length := by
  cases l with
  | nil =>
    cases h
    rfl
  | cons kw rest =>
    obtain ⟨a, v⟩ := kw
    obtain ⟨m, hm, hf⟩ := VRes.bind_ok h
    rw [bVisitKws_ok_len m rest s' hf, bVisitExpr_ok_len s v m hm]

theorem bVisitPairs_ok_len (s : BState) (l : List (Expr × Expr))
    (s' : BState) (h : bVisitPairs s l = .ok s') :
    s'.scopes.length = s.scopes.length := by
  cases l with
  | nil =>
    cases h
    rfl
  | cons p rest =>
    obtain ⟨k, v⟩ := p
    obtain ⟨m1, hm1, hf1⟩ := VRes.bind_ok h
    obtain ⟨m2, hm2, hf2⟩ := VRes.bind_ok hf1
    rw [bVisitPairs_ok_len m2 rest s' hf2, bVisitExpr_ok_len m1 v m2 hm2,
      bVisitExpr_ok_len s k m1 hm1]
end

end KurtosisLint

namespace KurtosisLint

/-- Scope-stack depth reached by a visit, whether it completes or raises:
on an exception this is the depth of the visitor state at the moment the
exception escapes. -/
def depthAfter (r : VRes BState) : Nat :=
  match r with
  | .ok s => s.scopes.length
  | .err _ s => s.scopes.length

/-- A function definition whose body is a list comprehension with a tuple
target: binding the comprehension targets accesses `generator.target.id`
and raises `AttributeError` after two frames have been pushed. -/
def stmtC9 : Stmt :=
  Stmt.funcDefS 1 "f"
    { args := [], defaults := [], vararg := none, kwonlyargs := [],
      kwDefaults := [], kwarg := none }
    [Stmt.exprS 2 (Expr.compE (Expr.constE (Const.intV 1))
      [(Expr.tupleE 2 [Expr.nameE "x", Expr.nameE "y"], Expr.nameE "xs")])]

/-- Counterexample for C9 as stated: visiting a function definition whose
body raises inside a comprehension leaves the walker two frames deeper
than before the visit — the pushed frames are not popped when an error
occurs, so the depth after visiting the block differs from the depth
before it. -/
theorem claim_C9_counterexample :
    depthAfter (bVisitStmt BState.init stmtC9) = 3 ∧
    BState.init.scopes.length = 1 ∧
    depthAfter (bVisitStmt BState.init stmtC9) ≠ BState.init.scopes.length :=
  ⟨rfl, rfl, by decide⟩

/-- C9 (amended): a frame pushed on entering a function body, branch, loop
body, or comprehension is popped when the walker leaves that block
normally — whenever visiting a statement completes without an exception,
the scope-stack depth afterwards equals the depth before.  When an
exception is raised inside the block the frame is not popped: the base
walker propagates the exception with the frames still pushed (the visitor
is then discarded at the file boundary), and the import visitor's
per-block exception handler resumes without popping. -/
theorem claim_C9_scope_depth_preserved (s : BState) (st : Stmt)
    (s' : BState) (h : bVisitStmt s st = .ok s') :
    s'.scopes.length = s.scopes.length :=
  bVisitStmt_ok_len s st s' h

/-- Witness for C9: a concrete error-free visit preserves the depth. -/
theorem claim_C9_witness :
    bVisitStmt BState.init (Stmt.exprS 0 (Expr.nameE "z")) =
      VRes.ok BState.init ∧
    BState.init.scopes.length = BState.init.scopes.length :=
  ⟨rfl,
   claim_C9_scope_depth_preserved BState.init
     (Stmt.exprS 0 (Expr.nameE "z")) BState.init rfl⟩

end KurtosisLint

namespace KurtosisLint

/-! ### C1: missing required positional arguments -/

theorem isPrefixOf_append_of_length_le {α : Type} [BEq α] :
    ∀ (p l r : List α), p.length ≤ l.length →
      (List.isPrefixOf p (l ++ r)) = List.isPrefixOf p l := by
  intro p
  induction p with
  | nil =>
    intro l r _
    simp [List.isPrefixOf]
  | cons a as ih =>
    intro l r h
    cases l with
    | nil => simp at h
    | cons b bs =>
      simp only [List.cons_append, List.isPrefixOf]
      rw [List.append_eq, ih bs r (by simpa using h)]

theorem sStarts_append_left (a b pre : String)
    (h : pre.data.length ≤ a.data.length) :
    sStarts (a ++ b) pre = sStarts a pre := by
  unfold sStarts
  rw [String.data_append a b]
  exact isPrefixOf_append_of_length_le _ _ _ h

theorem len_le_append (pre a b : String)
    (h : pre.data.length ≤ a.data.length) :
    pre.data.length ≤ (a ++ b).data.length := by
  rw [String.data_append a b, List.length_append]
  omega

theorem isPrefixOf_append_self {α : Type} [BEq α] [LawfulBEq α] :
    ∀ (p r : List α), List.isPrefixOf p (p ++ r) = true := by
  intro p
  induction p with
  | nil =>
    intro r
    simp [List.isPrefixOf]
  | cons a as ih =>
    intro r
    simp [List.isPrefixOf, List.cons_append, ih]

theorem sStarts_head_ne (a b pre : String) (ca cp : Char) (ta tp : List Char)
    (ha : a.data = ca :: ta) (hp : pre.data = cp :: tp)
    (hne : (cp == ca) = false) : sStarts (a ++ b) pre = false := by
  unfold sStarts
  rw [String.data_append a b, ha, hp]
  simp [List.isPrefixOf, List.cons_append, hne]

/-- Predicate selecting the missing-required-positionals violations. -/
def isMissingPosViolation (v : Nat × String) : Bool :=
  sStarts v.2 "Missing required positional argument"

theorem missingPosMsg_starts (miss : List String) (fid : String) :
    sStarts (missingPosMsg miss fid) "Missing required positional argument" =
      true := by
  unfold missingPosMsg sStarts
  simp only [String.data_append, List.append_assoc]
  exact isPrefixOf_append_self _ _

theorem tooMany_not_missingPos (lineno callArgs : Nat)
    (sig : FunctionSignature) (fid : String) :
    (tooManyViolations lineno callArgs sig fid).filter
      isMissingPosViolation = [] := by
  unfold tooManyViolations
  by_cases h1 : callArgs > sig.args.length ∧ sig.vararg = none
  · by_cases h2 : callArgs - sig.args.length ≤ sig.kwonlyargs.length
    · simp [h1, h2]
    · simp only [if_pos h1, if_neg h2]
      have hm : isMissingPosViolation
          (lineno, "Too many positional arguments in call to '" ++ fid ++
            "'") = false := by
        unfold isMissingPosViolation
        exact sStarts_head_ne _ _ _ 'T' 'M' _ _
          (by simp only [String.data_append]; rfl) rfl rfl
      simp [hm]
  · simp [h1]

theorem invalidKw_not_missingPos (lineno : Nat)
    (callKws : List (Option String)) (sig : FunctionSignature)
    (fid : String) :
    (invalidKwViolations lineno callKws sig fid).filter
      isMissingPosViolation = [] := by
  rw [List.filter_eq_nil_iff]
  intro v hv
  unfold invalidKwViolations at hv
  obtain ⟨kw, _, hkw⟩ := List.mem_filterMap.mp hv
  split at hkw
  · split at hkw
    · injection hkw with h2
      subst h2
      unfold isMissingPosViolation
      simp only [Bool.not_eq_true]
      exact sStarts_head_ne _ _ _ 'I' 'M' _ _
        (by simp only [String.data_append]; rfl) rfl rfl
    · simp at hkw
  · simp at hkw

theorem kwonlyLoop_msg_shape (kwdef : List (KwKey × Const))
    (kwn : List String) (fid : String) (lineno : Nat) :
    ∀ (ko : List String) (i : Nat) (v : Nat × String),
      v ∈ (kwonlyLoop kwdef kwn fid lineno ko i).1 →
      ∃ a, v = (lineno, "Missing required keyword-only argument '" ++ a ++
        "' in call to '" ++ fid ++ "'") := by
  intro ko
  induction ko with
  | nil =>
    intro i v h
    simp [kwonlyLoop] at h
  | cons a rest ih =>
    intro i v h
    simp only [kwonlyLoop] at h
    split at h
    · simp at h
    · simp only [List.mem_append] at h
      rcases h with h | h
      · split at h
        · simp only [List.mem_singleton] at h
          exact ⟨a, h⟩
        · simp at h
      · exact ih (i + 1) v h

end KurtosisLint

namespace KurtosisLint

theorem kwonly_not_missingPos (kwdef : List (KwKey × Const))
    (kwn : List String) (fid : String) (lineno : Nat) (ko : List String)
    (i : Nat) :
    ((kwonlyLoop kwdef kwn fid lineno ko i).1).filter
      isMissingPosViolation = [] := by
  rw [List.filter_eq_nil_iff]
  intro v hv
  obtain ⟨a, rfl⟩ := kwonlyLoop_msg_shape kwdef kwn fid lineno ko i v hv
  unfold isMissingPosViolation
  simp only [Bool.not_eq_true]
  rw [sStarts_append_left _ _ _
    (len_le_append _ _ _ (len_le_append _ _ _ (len_le_append _ _ _
      (by decide))))]
  rw [sStarts_append_left _ _ _
    (len_le_append _ _ _ (len_le_append _ _ _ (by decide)))]
  rw [sStarts_append_left _ _ _ (len_le_append _ _ _ (by decide))]
  rw [sStarts_append_left _ _ _ (by decide)]
  decide

theorem missingArgsLoop_eq (l kw : List String) :
    ∀ idxs, missingArgsLoop l kw idxs =
      (idxs.filterMap (fun i => l[i]?)).filter
        (fun a => decide (a ∉ kw)) := by
  intro idxs
  induction idxs with
  | nil => rfl
  | cons i rest ih =>
    simp only [missingArgsLoop, List.filterMap_cons]
    cases h : l[i]? with
    | some a =>
      by_cases hk : a ∈ kw
      · simp [hk, ih]
      · simp [hk, ih]
    | none => simp [ih]

/-- Parameter names the amended claim says are reported: the names at
positions from the effectively-provided count up to the required count
that are not supplied by keyword arguments. -/
def specMissingParams (callArgs : Nat) (callKws : List (Option String))
    (sig : FunctionSignature) : List String :=
  ((List.range' (providedCount callArgs callKws sig)
      (sig.args.length - sig.defaults.length -
        providedCount callArgs callKws sig)).filterMap
    (fun i => sig.args[i]?)).filter
    (fun a => decide (a ∉ callKws.filterMap (fun x => x)))

theorem missingParams_eq (callArgs : Nat) (callKws : List (Option String))
    (sig : FunctionSignature) :
    missingParams callArgs callKws sig =
      specMissingParams callArgs callKws sig := by
  unfold missingParams specMissingParams
  by_cases h : providedCount callArgs callKws sig <
      sig.args.length - sig.defaults.length
  · simp only [if_pos h]
    exact missingArgsLoop_eq _ _ _
  · simp only [if_neg h]
    have h0 : sig.args.length - sig.defaults.length -
        providedCount callArgs callKws sig = 0 := by omega
    rw [h0]
    rfl

theorem missing_filter_self (lineno callArgs : Nat)
    (callKws : List (Option String)) (sig : FunctionSignature)
    (fid : String) :
    (missingViolations lineno callArgs callKws sig fid).filter
        isMissingPosViolation =
      missingViolations lineno callArgs callKws sig fid := by
  unfold missingViolations
  by_cases h : missingParams callArgs callKws sig ≠ []
  · simp only [if_pos h]
    simp [isMissingPosViolation, missingPosMsg_starts]
  · simp [h]

/-- C1 (amended): the count of effectively-provided positional slots is
the positional-argument count plus the number of keyword arguments naming
one of the first `required` positional parameters (confirming the claim's
count formula); whenever that count is below `required`, the code examines
only the parameter positions from the count up to `required`, collects
those of them not supplied as keywords, and produces exactly one violation
naming exactly that collection, pluralized exactly when it has more than
one name — required parameters at positions below the count are never
named, and when every examined position is keyword-supplied no violation
is produced at all. -/
theorem claim_C1_missing_positional_amended (lineno callArgs : Nat)
    (callKws : List (Option String)) (sig : FunctionSignature)
    (fid : String) :
    (checkCallCompatibility lineno callArgs callKws sig fid).violations.filter
        isMissingPosViolation =
      (if specMissingParams callArgs callKws sig ≠ [] then
        [(lineno, missingPosMsg (specMissingParams callArgs callKws sig) fid)]
      else []) := by
  unfold checkCallCompatibility
  dsimp only
  simp only [List.filter_append, tooMany_not_missingPos,
    invalidKw_not_missingPos, kwonly_not_missingPos, missing_filter_self,
    List.nil_append, List.append_nil]
  unfold missingViolations
  rw [missingParams_eq]

/-- Signature of `def f(a, b)` used by the C1 counterexample. -/
def sigC1 : FunctionSignature :=
  { name := "f", filePath := "mod.star", lineno := 1, args := ["a", "b"],
    defaults := [], kwonlyargs := [], kwdefaults := [], vararg := none,
    kwarg := none }

/-- The per-call consequence of claim C1 as stated: whenever the
effectively-provided count is below the required count, exactly one
missing-required-positional violation is produced (the claim further says
it names every missing parameter). -/
def claimC1At (callArgs : Nat) (callKws : List (Option String))
    (sig : FunctionSignature) (lineno : Nat) (fid : String) : Prop :=
  providedCount callArgs callKws sig <
      sig.args.length - sig.defaults.length →
    ((checkCallCompatibility lineno callArgs callKws sig fid).violations.filter
      isMissingPosViolation).length = 1

/-- Counterexample for C1 as stated: for `def f(a, b)` called as
`f(b=1)`, the effectively-provided count is 1, below the required count 2,
and parameter `a` is supplied neither positionally nor by keyword — yet
the checker emits no violation at all: the examined index window
`range(provided, required)` starts past the missing parameter and the only
examined name `b` is keyword-supplied. -/
theorem claim_C1_counterexample :
    providedCount 0 [some "b"] sigC1 = 1 ∧
    sigC1.args.length - sigC1.defaults.length = 2 ∧
    (checkCallCompatibility 5 0 [some "b"] sigC1 "f").violations = [] ∧
    ¬ claimC1At 0 [some "b"] sigC1 5 "f" :=
  ⟨rfl, rfl, by decide, by unfold claimC1At; decide⟩

end KurtosisLint

namespace KurtosisLint

/-! ### C2: missing required keyword-only arguments -/

theorem lookupKw_all_kstr (l : List (KwKey × Const))
    (h : ∀ p ∈ l, ∃ s, p.1 = KwKey.kstr s) (i : Nat) :
    lookupKw l (KwKey.kint i) = none := by
  induction l with
  | nil => rfl
  | cons p t ih =>
    obtain ⟨s, hs⟩ := h p (List.mem_cons_self p t)
    obtain ⟨k1, c1⟩ := p
    simp only at hs
    subst hs
    simp only [lookupKw, reduceCtorEq, if_false]
    exact ih (fun q hq => h q (List.mem_cons_of_mem _ hq))

/-- C2 (on the code as written): for every signature extracted from a
function definition that has at least one keyword-only parameter, the
compatibility check aborts with `KeyError(0)`: the keyword-only loop
indexes the name-keyed `kwdefaults` mapping with the integer position, so
the missing/supplied analysis the claim describes is never performed — for
any call, supplied or not.  At the file boundary the exception becomes a
single line-0 "Error analyzing file" violation. -/
theorem claim_C2_kwonly_check_raises (lineno callArgs : Nat)
    (callKws : List (Option String)) (fp : String) (dline : Nat)
    (name : String) (spec : ArgSpec) (fid : String)
    (h : spec.kwonlyargs ≠ []) :
    (checkCallCompatibility lineno callArgs callKws
        (extractSignature fp dline name spec) fid).error =
      some (PyErr.keyError 0) := by
  unfold checkCallCompatibility extractSignature
  dsimp only
  have hnone : lookupKw ((spec.kwonlyargs.zip spec.kwDefaults).map
      (fun p => (KwKey.kstr p.1,
        match p.2 with | some (.constE c) => c | _ => Const.noneV)))
      (KwKey.kint 0) = none := by
    apply lookupKw_all_kstr
    intro p hp
    obtain ⟨q, _, rfl⟩ := List.mem_map.mp hp
    exact ⟨q.1, rfl⟩
  cases hko : spec.kwonlyargs with
  | nil => exact absurd hko h
  | cons a rest =>
    rw [hko] at hnone
    simp only [kwonlyLoop, hnone]

/-- Argument specification of `def g(*, x)` used by the C2 witness. -/
def argSpecC2 : ArgSpec :=
  { args := [], defaults := [], vararg := none, kwonlyargs := ["x"],
    kwDefaults := [none], kwarg := none }

/-- Witness for C2: the failing input — `def g(*, x)` called as
`g(x=1)`, where the claim demands no violation (the keyword-only parameter
is supplied) — makes the checker raise `KeyError(0)` instead. -/
theorem claim_C2_witness :
    argSpecC2.kwonlyargs ≠ [] ∧
    (checkCallCompatibility 7 0 [some "x"]
        (extractSignature "module.star" 1 "g" argSpecC2) "g").error =
      some (PyErr.keyError 0) :=
  ⟨by decide,
   claim_C2_kwonly_check_raises 7 0 [some "x"] "module.star" 1 "g"
     argSpecC2 "g" (by decide)⟩

end KurtosisLint

namespace KurtosisLint

/-! ### C3: function visibility -/

theorem mem_restrict (l : List (String × String)) (fp n : String) :
    (n ∈ l.filterMap (fun p => if p.1 = fp then some p.2 else none)) ↔
      (fp, n) ∈ l := by
  rw [List.mem_filterMap]
  constructor
  · rintro ⟨p, hp, hpe⟩
    by_cases h1 : p.1 = fp
    · rw [if_pos h1] at hpe
      injection hpe with h2
      have hpn : p = (fp, n) := by
        obtain ⟨a, b⟩ := p
        simp only at h1 h2
        rw [h1, h2]
      rwa [hpn] at hp
    · rw [if_neg h1] at hpe
      cases hpe
  · intro hp
    exact ⟨(fp, n), hp, by simp⟩

/-- The visibility judgment as the claim describes it, per function: a
privacy-marked or test-marked name is exempt; a documented function yields
nothing; an undocumented function referenced from another file (per the
reference-edge set restricted to this file) should be documented; an
undocumented unreferenced function should be made private. -/
def visibilitySpec (filePath : String) (refs : List (String × String))
    (f : FuncView) : List (Nat × String) :=
  if sStarts f.name "_" ∨ sStarts f.name "test_" then []
  else if (match f.doc with
      | .strD s => decide (sStrip s ≠ "")
      | .boolD b => b) then []
  else if (filePath, f.name) ∈ refs then
    [(f.line, "Public function '" ++ f.name ++
      "' is used in other modules and should be documented")]
  else
    [(f.line, "Function '" ++ f.name ++
      "' is not documented and not used in other modules, consider making it private")]

theorem visibilityFor_eq_spec (filePath : String)
    (calledFromOther : List String) (refs : List (String × String))
    (hmem : ∀ n, (n ∈ calledFromOther) ↔ ((filePath, n) ∈ refs))
    (f : FuncView) :
    visibilityViolationsFor calledFromOther f =
      visibilitySpec filePath refs f := by
  unfold visibilityViolationsFor visibilitySpec
  dsimp only
  generalize (match f.doc with
      | DocV.strD s => decide (sStrip s ≠ "")
      | DocV.boolD b => b) = d
  by_cases h1 : sStarts f.name "_" = true
  · simp [h1]
  · by_cases h2 : sStarts f.name "test_" = true
    · simp [h1, h2]
    · cases d with
      | true => simp [h1, h2]
      | false =>
        by_cases hu : f.name ∈ calledFromOther
        · have hu' : (filePath, f.name) ∈ refs := (hmem _).mp hu
          simp [h1, h2, hu, hu']
        · have hu' : (filePath, f.name) ∉ refs :=
            fun hc => hu ((hmem _).mpr hc)
          simp [h1, h2, hu, hu']

theorem visibility_fold (filePath : String) (calledFromOther : List String)
    (refs : List (String × String))
    (hmem : ∀ n, (n ∈ calledFromOther) ↔ ((filePath, n) ∈ refs)) :
    ∀ (functions : List FuncView) (acc : List (Nat × String)),
      functions.foldl
          (fun acc f => acc ++ visibilityViolationsFor calledFromOther f)
          acc =
        acc ++ functions.bind (visibilitySpec filePath refs) := by
  intro functions
  induction functions with
  | nil =>
    intro acc
    simp
  | cons f t ih =>
    intro acc
    simp only [List.foldl_cons, List.cons_bind]
    rw [ih, visibilityFor_eq_spec filePath calledFromOther refs hmem f,
      List.append_assoc]

/-- C3: with visibility checking enabled and assuming the visitor's own
reference set contains no self-edges for this file (the visitor only ever
records edges whose target differs from the current file), the visibility
analysis produces, for every function in order, exactly the violations of
the claim's case analysis: nothing for privacy-marked, test-marked, or
documented functions; one "should be documented" violation for an
undocumented function referenced from another file; one
"consider making it private" violation for an undocumented unreferenced
function. -/
theorem claim_C3_visibility (filePath : String) (functions : List FuncView)
    (shared selfCalls : List (String × String))
    (hself : ∀ n, (filePath, n) ∉ selfCalls) :
    analyzeFunctionVisibility true filePath functions (some shared)
        selfCalls =
      functions.bind (visibilitySpec filePath shared) := by
  unfold analyzeFunctionVisibility
  rw [if_neg (fun hc => hc rfl)]
  by_cases hsh : shared = []
  · subst hsh
    dsimp only
    rw [if_neg (fun hc => hc rfl)]
    have hmem : ∀ n,
        (n ∈ selfCalls.filterMap
          (fun p => if p.1 = filePath then some p.2 else none)) ↔
          ((filePath, n) ∈ ([] : List (String × String))) := by
      intro n
      rw [mem_restrict]
      constructor
      · intro hc
        exact absurd hc (hself n)
      · intro hc
        cases hc
    rw [visibility_fold filePath _ [] hmem functions []]
    rfl
  · dsimp only
    rw [if_pos hsh]
    rw [visibility_fold filePath _ shared
      (fun n => mem_restrict shared filePath n) functions []]
    rfl

/-- Witness for C3: one undocumented function referenced from another
file yields exactly the "should be documented" violation. -/
theorem claim_C3_witness :
    (∀ n, ("m.star", n) ∉ ([] : List (String × String))) ∧
    analyzeFunctionVisibility true "m.star"
        [⟨"undoc", 4, DocV.boolD false⟩]
        (some [("m.star", "undoc")]) [] =
      [⟨"undoc", 4, DocV.boolD false⟩].bind
        (visibilitySpec "m.star" [("m.star", "undoc")]) :=
  ⟨fun _ h => List.not_mem_nil _ h,
   claim_C3_visibility "m.star" [⟨"undoc", 4, DocV.boolD false⟩]
     [("m.star", "undoc")] [] (fun _ h => List.not_mem_nil _ h)⟩

end KurtosisLint

namespace KurtosisLint

/-- Pushing a name into the current scope frame rewrites only the scope
stack; every other field of the import-visitor state is untouched. -/
theorem iBind_eq (s : IState) (v : String) :
    iBind s v = { s with scopes := (iBind s v).scopes } := by
  unfold iBind
  split <;> rfl

/-- The existence-check violations that `_handle_name_assignment` may add
for a resolved import path, separate from the naming convention. -/
def existencePart (cfg : IConfig) (lineno : Nat) (path : String) :
    List (Nat × String) :=
  match (resolveModulePath cfg path).1 with
  | some rp =>
    if cfg.checkFileExists ∧ ¬ cfg.isFile rp then
      [(lineno, existenceMsg path rp)]
    else []
  | none => []

theorem c4_direct (cfg : IConfig) (s : IState) (lineno : Nat) (y p : String)
    (value : Expr) (h0 : s.scopeLevel = 0) :
    (iHandleNameAssignment cfg s lineno y true (some p) value).violations =
      s.violations ++ existencePart cfg lineno p ++
        (if sStarts y "_" then [] else [(lineno, directImportMsg y)]) := by
  unfold iHandleNameAssignment
  rw [iBind_eq s y]
  generalize (iBind s y).scopes = sc
  unfold existencePart
  dsimp only
  cases hr : (resolveModulePath cfg p).1 with
  | some rp =>
    by_cases hc : cfg.checkFileExists = true ∧ cfg.isFile rp = false
    · by_cases hy : sStarts y "_" = true
      · simp [checkNamingConvention, h0, hc, hy]
      · simp [checkNamingConvention, h0, hc, hy]
    · by_cases hy : sStarts y "_" = true
      · simp [checkNamingConvention, h0, hc, hy]
      · simp [checkNamingConvention, h0, hc, hy]
  | none =>
    by_cases hy : sStarts y "_" = true
    · simp [checkNamingConvention, h0, hy]
    · simp [checkNamingConvention, h0, hy]

theorem c4_alias (cfg : IConfig) (s : IState) (lineno : Nat) (y x : String)
    (h0 : s.scopeLevel = 0)
    (himp : isImportModuleVar s.importModuleVars
      (insertA s.aliases y x) x [] = true) :
    (iHandleNameAssignment cfg s lineno y false none (.nameE x)).violations =
      s.violations ++
        (if sStarts y "_" then [] else [(lineno, aliasImportMsg y)]) := by
  unfold iHandleNameAssignment
  rw [iBind_eq s y]
  generalize (iBind s y).scopes = sc
  dsimp only
  by_cases hy : sStarts y "_" = true
  · simp [checkNamingConvention, himp, h0, hy]
  · simp [checkNamingConvention, himp, h0, hy]

theorem c4_local (cfg : IConfig) (s : IState) (lineno : Nat)
    (y p x : String) (value : Expr) (h0 : s.scopeLevel ≠ 0) :
    (iHandleNameAssignment cfg s lineno y true (some p) value).violations =
        s.violations ++ existencePart cfg lineno p ∧
    (iHandleNameAssignment cfg s lineno y false none (.nameE x)).violations =
        s.violations := by
  constructor
  · unfold iHandleNameAssignment
    rw [iBind_eq s y]
    generalize (iBind s y).scopes = sc
    unfold existencePart
    dsimp only
    cases hr : (resolveModulePath cfg p).1 with
    | some rp =>
      by_cases hc : cfg.checkFileExists = true ∧ cfg.isFile rp = false
      · simp [h0, hc]
      · simp [h0, hc]
    | none => simp [h0]
  · unfold iHandleNameAssignment
    rw [iBind_eq s y]
    generalize (iBind s y).scopes = sc
    dsimp only
    simp [h0]

/-- C4: the naming convention on `import_module` results.  At the global
frame (scope level 0), a name bound directly to an import call yields,
after any existence-check violation for its resolved path, exactly one
naming violation citing a direct import when the name lacks the privacy
marker and none when it starts with the marker; a global name aliasing a
variable that resolves to an import result yields its own violation citing
an alias under the same marker rule; at any non-global scope level neither
the direct-import nor the alias assignment adds a naming violation. -/
theorem claim_C4_naming_convention (cfg : IConfig) (s : IState)
    (lineno : Nat) (y p x : String) (value : Expr) :
    (s.scopeLevel = 0 →
      (iHandleNameAssignment cfg s lineno y true (some p) value).violations =
        s.violations ++ existencePart cfg lineno p ++
          (if sStarts y "_" then [] else [(lineno, directImportMsg y)])) ∧
    (s.scopeLevel = 0 →
      isImportModuleVar s.importModuleVars (insertA s.aliases y x) x [] =
        true →
      (iHandleNameAssignment cfg s lineno y false none (.nameE x)).violations =
        s.violations ++
          (if sStarts y "_" then [] else [(lineno, aliasImportMsg y)])) ∧
    (s.scopeLevel ≠ 0 →
      ((iHandleNameAssignment cfg s lineno y true (some p) value).violations =
          s.violations ++ existencePart cfg lineno p ∧
       (iHandleNameAssignment cfg s lineno y false none
          (.nameE x)).violations = s.violations)) :=
  ⟨fun h0 => c4_direct cfg s lineno y p value h0,
   fun h0 himp => c4_alias cfg s lineno y x h0 himp,
   fun h0 => c4_local cfg s lineno y p x value h0⟩

/-- Import-visitor configuration for the C4 witness: existence checking
off, workspace root present. -/
def icfg4 : IConfig := ⟨"/ws/a.star", some "/ws", false, fun _ => false⟩

/-- State with one import-bound variable, for the alias conjunct. -/
def st4a : IState := { IState.init with importModuleVars := ["m"] }

/-- State inside a function scope, for the local-binding conjunct. -/
def st4l : IState := { IState.init with scopeLevel := 1 }

/-- Witness for C4 at concrete inputs: a global direct import `m` yields
the direct-import naming violation, a global alias `n = m` yields the
alias violation, and the same direct import inside a function yields no
violation at all. -/
theorem claim_C4_witness :
    (iHandleNameAssignment icfg4 IState.init 3 "m" true (some "pkg/a.star")
        (Expr.constE Const.noneV)).violations =
      [(3, directImportMsg "m")] ∧
    (iHandleNameAssignment icfg4 st4a 4 "n" false none
        (Expr.nameE "m")).violations = [(4, aliasImportMsg "n")] ∧
    (iHandleNameAssignment icfg4 st4l 5 "q" true (some "pkg/a.star")
        (Expr.constE Const.noneV)).violations = [] := by
  refine ⟨?_, ?_, ?_⟩
  · have h := (claim_C4_naming_convention icfg4 IState.init 3 "m"
      "pkg/a.star" "x" (Expr.constE Const.noneV)).1 rfl
    rw [h]
    rfl
  · have h := (claim_C4_naming_convention icfg4 st4a 4 "n" "p" "m"
      (Expr.nameE "m")).2.1 rfl
      (by simp [st4a, IState.init, isImportModuleVar, insertA, lookupA])
    rw [h]
    rfl
  · have h := ((claim_C4_naming_convention icfg4 st4l 5 "q" "pkg/a.star"
      "x" (Expr.constE Const.noneV)).2.2 (by decide)).1
    rw [h]
    rfl

end KurtosisLint

namespace KurtosisLint

theorem c6_fold (cfg : Config) (checks : Checks) (ws : String) :
    ∀ (paths : List String) (sh : Shared)
      (accA accG : List (String × List (Nat × String))),
      paths.Nodup →
      (∀ p ∈ paths, p ∉ accG.map Prod.fst) →
      accG = accA.filter (fun e => decide (e.2 ≠ [])) →
      (paths.foldl
        (fun acc p =>
          let r := analyzeFileCaught cfg p checks acc.1 ws
          (r.1, if r.2 ≠ [] then insertA acc.2 p r.2 else acc.2))
        (sh, accG)).2 =
      ((paths.foldl
        (fun acc p =>
          let r := analyzeFileCaught cfg p checks acc.1 ws
          (r.1, acc.2 ++ [(p, r.2)]))
        (sh, accA)).2).filter (fun e => decide (e.2 ≠ [])) := by
  intro paths
  induction paths with
  | nil =>
    intro sh accA accG _ _ hfil
    simpa using hfil
  | cons p t ih =>
    intro sh accA accG hnd hkeys hfil
    simp only [List.foldl_cons]
    have hndt : t.Nodup := (List.nodup_cons.mp hnd).2
    have hpt : p ∉ t := (List.nodup_cons.mp hnd).1
    have hpacc : p ∉ accG.map Prod.fst := hkeys p (List.mem_cons_self p t)
    by_cases hv : (analyzeFileCaught cfg p checks sh ws).2 = []
    · rw [if_neg (fun hc => hc hv)]
      refine ih _ _ _ hndt (fun q hq => hkeys q (List.mem_cons_of_mem p hq)) ?_
      rw [hfil, List.filter_append]
      simp [hv]
    · rw [if_pos hv, insertA_not_mem _ _ _ hpacc]
      refine ih _ _ _ hndt ?_ ?_
      · intro q hq
        simp only [List.map_append, List.mem_append]
        rintro (hqa | hqp)
        · exact hkeys q (List.mem_cons_of_mem p hq) hqa
        · simp only [List.map_cons, List.map_nil, List.mem_singleton] at hqp
          exact hpt (hqp ▸ hq)
      · rw [hfil, List.filter_append]
        simp [hv]

/-- C6: the two-pass protocol of `analyze_files`.  With distinct input
paths, the mapping returned by the analyzer equals the full pass-2 output
(one entry per input file, computed against the shared state accumulated
by pass 1, whose own violation lists are discarded) restricted to files
whose pass-2 violation list is non-empty; consequently every entry of the
result carries a non-empty violation list. -/
theorem claim_C6_two_pass (cfg : Config) (paths : List String)
    (checks : Checks) (ws : String) (hnd : paths.Nodup) :
    analyzeFilesGo cfg paths checks ws =
      (twoPassAll cfg paths checks ws).filter
        (fun e => decide (e.2 ≠ [])) ∧
    ∀ e ∈ analyzeFilesGo cfg paths checks ws, e.2 ≠ [] := by
  have h := c6_fold cfg checks ws paths
    (passOneShared cfg paths checks ws) [] [] hnd
    (by intro p _ hc; simp at hc) (by simp)
  refine ⟨h, ?_⟩
  intro e he
  rw [analyzeFilesGo, h] at he
  have := List.of_mem_filter he
  simpa using this

/-- Analyzer environment for the C6 witness: the single input file fails
to parse, so pass 2 reports one synthetic parse-failure violation. -/
def cfgC6 : Config :=
  ⟨fun _ => .error "boom", fun _ => false, fun _ => "/ws", [], []⟩

/-- Check toggles with every check enabled. -/
def checksAll : Checks := ⟨true, true, true⟩

/-- Witness for C6 at a concrete run: one unparsable input file; the
returned mapping is the filtered pass-2 output and its single entry has a
non-empty violation list. -/
theorem claim_C6_witness :
    analyzeFilesGo cfgC6 ["/ws/a.star"] checksAll "/ws" =
      (twoPassAll cfgC6 ["/ws/a.star"] checksAll "/ws").filter
        (fun e => decide (e.2 ≠ [])) ∧
    ∀ e ∈ analyzeFilesGo cfgC6 ["/ws/a.star"] checksAll "/ws", e.2 ≠ [] :=
  claim_C6_two_pass cfgC6 ["/ws/a.star"] checksAll "/ws"
    (List.nodup_singleton _)

end KurtosisLint

namespace KurtosisLint

/-- Looking a key up after appending one entry: the old binding wins, and
the new entry is found only when the key was absent. -/
theorem lookupA_append {α : Type} (l : List (String × α)) (p g : String)
    (v : α) :
    lookupA (l ++ [(p, v)]) g =
      match lookupA l g with
      | some w => some w
      | none => if p = g then some v else none := by
  induction l with
  | nil => simp [lookupA]
  | cons hd t ih =>
    obtain ⟨k1, v1⟩ := hd
    by_cases hk : k1 = g
    · simp [lookupA, hk]
    · simp only [List.cons_append, lookupA, if_neg hk]
      exact ih

theorem c7_step (c : Config) (pr pr' : String → Except String Module)
    (f : String) (hpr : ∀ g, g ≠ f → pr g = pr' g)
    (e e' : String) (he : pr f = .error e) (he' : pr' f = .error e')
    (p : String) (checks : Checks) (sh : Shared) (ws : String) :
    (analyzeFileCaught { c with parse := pr } p checks sh ws).1 =
      (analyzeFileCaught { c with parse := pr' } p checks sh ws).1 ∧
    (p ≠ f →
      analyzeFileCaught { c with parse := pr } p checks sh ws =
        analyzeFileCaught { c with parse := pr' } p checks sh ws) := by
  by_cases hp : p = f
  · subst hp
    refine ⟨?_, fun hc => absurd rfl hc⟩
    simp [analyzeFileCaught, analyzeFileInner, he, he']
  · have heq : analyzeFileCaught { c with parse := pr } p checks sh ws =
        analyzeFileCaught { c with parse := pr' } p checks sh ws := by
      simp only [analyzeFileCaught, analyzeFileInner]
      rw [hpr p hp]
    exact ⟨by rw [heq], fun _ => heq⟩

theorem c7_pass1 (c : Config) (pr pr' : String → Except String Module)
    (f : String) (hpr : ∀ g, g ≠ f → pr g = pr' g)
    (e e' : String) (he : pr f = .error e) (he' : pr' f = .error e')
    (checks : Checks) (ws : String) :
    ∀ (paths : List String) (sh : Shared),
      paths.foldl
        (fun sh p =>
          (analyzeFileCaught { c with parse := pr } p checks sh ws).1) sh =
      paths.foldl
        (fun sh p =>
          (analyzeFileCaught { c with parse := pr' } p checks sh ws).1) sh := by
  intro paths
  induction paths with
  | nil => intro sh; rfl
  | cons p t ih =>
    intro sh
    simp only [List.foldl_cons]
    rw [(c7_step c pr pr' f hpr e e' he he' p checks sh ws).1]
    exact ih _

theorem c7_fold (c : Config) (pr pr' : String → Except String Module)
    (f : String) (hpr : ∀ g, g ≠ f → pr g = pr' g)
    (e e' : String) (he : pr f = .error e) (he' : pr' f = .error e')
    (checks : Checks) (ws : String) :
    ∀ (paths : List String) (sh : Shared)
      (acc acc' : List (String × List (Nat × String))),
      (∀ g, g ≠ f → lookupA acc g = lookupA acc' g) →
      ∀ g, g ≠ f →
        lookupA ((paths.foldl
          (fun a p =>
            let r := analyzeFileCaught { c with parse := pr } p checks a.1 ws
            (r.1, a.2 ++ [(p, r.2)])) (sh, acc)).2) g =
        lookupA ((paths.foldl
          (fun a p =>
            let r := analyzeFileCaught { c with parse := pr' } p checks a.1 ws
            (r.1, a.2 ++ [(p, r.2)])) (sh, acc')).2) g := by
  intro paths
  induction paths with
  | nil =>
    intro sh acc acc' hacc g hg
    exact hacc g hg
  | cons p t ih =>
    intro sh acc acc' hacc g hg
    simp only [List.foldl_cons]
    have hstep := c7_step c pr pr' f hpr e e' he he' p checks sh ws
    rw [hstep.1]
    refine ih _ _ _ ?_ g hg
    intro q hq
    rw [lookupA_append, lookupA_append, hacc q hq]
    by_cases hpq : p = q
    · subst hpq
      rw [hstep.2 hq]
    · simp [hpq]

theorem c7_keys (cfg : Config) (checks : Checks) (ws : String) :
    ∀ (paths : List String) (sh : Shared)
      (acc : List (String × List (Nat × String))),
      ((paths.foldl
        (fun a p =>
          let r := analyzeFileCaught cfg p checks a.1 ws
          (r.1, a.2 ++ [(p, r.2)])) (sh, acc)).2).map Prod.fst =
        acc.map Prod.fst ++ paths := by
  intro paths
  induction paths with
  | nil =>
    intro sh acc
    simp
  | cons p t ih =>
    intro sh acc
    simp only [List.foldl_cons]
    rw [ih]
    simp

/-- C7: per-file error isolation.  First, whenever the body of
`analyze_file` raises, the handler converts the exception into exactly one
synthetic violation at line 0 carrying the error text.  Second, pass 2
emits one entry for every input file in order, so an error in one file
never prevents the others from being analyzed.  Third, replacing the
parser's behavior on one failing file by any other failure leaves every
other file's entry in the pass-2 output unchanged. -/
theorem claim_C7_error_isolation :
    (∀ (cfg : Config) (f : String) (checks : Checks) (sh : Shared)
        (ws m : String) (sh₁ : Shared),
      analyzeFileInner cfg f checks sh ws = .error (m, sh₁) →
      analyzeFileCaught cfg f checks sh ws =
        (sh₁, [(0, "Error analyzing file " ++ f ++ ": " ++ m)])) ∧
    (∀ (cfg : Config) (paths : List String) (checks : Checks) (ws : String),
      (twoPassAll cfg paths checks ws).map Prod.fst = paths) ∧
    (∀ (c : Config) (pr pr' : String → Except String Module) (f e e' : String),
      (∀ g, g ≠ f → pr g = pr' g) →
      pr f = .error e → pr' f = .error e' →
      ∀ (paths : List String) (checks : Checks) (ws g : String), g ≠ f →
        lookupA (twoPassAll { c with parse := pr } paths checks ws) g =
          lookupA (twoPassAll { c with parse := pr' } paths checks ws) g) := by
  refine ⟨?_, ?_, ?_⟩
  · intro cfg f checks sh ws m sh₁ h
    unfold analyzeFileCaught
    rw [h]
  · intro cfg paths checks ws
    unfold twoPassAll
    rw [c7_keys cfg checks ws paths _ []]
    rfl
  · intro c pr pr' f e e' hpr he he' paths checks ws g hg
    have hp1 : passOneShared { c with parse := pr } paths checks ws =
        passOneShared { c with parse := pr' } paths checks ws := by
      unfold passOneShared
      exact c7_pass1 c pr pr' f hpr e e' he he'
        (firstPassChecks checks) ws paths _
    unfold twoPassAll
    rw [hp1]
    exact c7_fold c pr pr' f hpr e e' he he' checks ws paths _ [] []
      (fun _ _ => rfl) g hg

/-- Base analyzer environment for the C7 witness. -/
def c7base : Config :=
  ⟨fun _ => .error "unused", fun _ => false, fun _ => "/ws", [], []⟩

/-- Parser that fails on one file and parses the rest to empty modules. -/
def prC7 : String → Except String Module :=
  fun g => if g = "/ws/bad.star" then .error "boom" else .ok []

/-- The same parser with a different failure text on the bad file. -/
def prC7x : String → Except String Module :=
  fun g => if g = "/ws/bad.star" then .error "crash" else .ok []

/-- Witness for C7 at a concrete run of two files, one unparsable: the bad
file's result is the single line-0 violation carrying the parse error, the
pass-2 output still has one entry per input file, and changing the failure
text leaves the good file's entry untouched. -/
theorem claim_C7_witness :
    analyzeFileCaught { c7base with parse := prC7 } "/ws/bad.star" checksAll
        (initialShared ["/ws/bad.star", "/ws/ok.star"] "/ws") "/ws" =
      (initialShared ["/ws/bad.star", "/ws/ok.star"] "/ws",
       [(0, "Error analyzing file " ++ "/ws/bad.star" ++ ": " ++ "boom")]) ∧
    (twoPassAll { c7base with parse := prC7 }
        ["/ws/bad.star", "/ws/ok.star"] checksAll "/ws").map Prod.fst =
      ["/ws/bad.star", "/ws/ok.star"] ∧
    lookupA (twoPassAll { c7base with parse := prC7 }
        ["/ws/bad.star", "/ws/ok.star"] checksAll "/ws") "/ws/ok.star" =
      lookupA (twoPassAll { c7base with parse := prC7x }
        ["/ws/bad.star", "/ws/ok.star"] checksAll "/ws") "/ws/ok.star" := by
  refine ⟨?_, ?_, ?_⟩
  · exact claim_C7_error_isolation.1 _ "/ws/bad.star" checksAll _ "/ws"
      "boom" _ rfl
  · exact claim_C7_error_isolation.2.1 _ _ checksAll "/ws"
  · exact claim_C7_error_isolation.2.2 c7base prC7 prC7x "/ws/bad.star"
      "boom" "crash"
      (fun g hg => by simp [prC7, prC7x, hg])
      (by simp [prC7]) (by simp [prC7x])
      _ checksAll "/ws" _ (by decide)

end KurtosisLint
